import Mathlib

/-!
Verification development for the usbredir core of the USB-App repository:
the device filter (`usbredirfilter.c`), the wire-protocol codec
(`usbredirparser.c`) and the host-side redirection engine
(`usbredirhost.c`), shallowly embedded in Lean 4.

Machine integers are modelled as `Nat`/`Int` with explicit wrapping where the
C code can overflow; byte buffers are `List Nat` (each element one byte);
C strings are `List Char`.  Fallible C functions returning error codes are
modelled by the same code values; functions communicating through out
parameters return pairs.

The repository ships only the `.c` files; the protocol/struct headers
(`usbredirproto.h`, `usbredirfilter.h`, `usbredirparser.h`) are not part of
the source tree.  Constants and struct layouts that live in those headers
(packet type codes, capability bit positions, wire status codes, sizeof
values of packed header structs, the serialize magic) are modelled from the
specification, which lists them; definitions concerned are marked
`Modelled from the spec` in their doc comments.
-/

namespace USBRedir

/-! ## errno values (from the C library headers; standard Linux values) -/

def EPERM : Int := 1

def ENOENT : Int := 2

def ENOMEM : Int := 12

def EINVAL : Int := 22

/-! ## Filter: data model

`struct usbredirfilter_rule` (declared in the missing `usbredirfilter.h`;
Modelled from the spec §3 "Filter rule" and the field order used by both
`usbredirfilter_rules_to_string` and the `(int *)` cast in
`usbredirfilter_string_to_rules`): five C `int` fields in the order
device_class, vendor_id, product_id, device_version_bcd, allow. -/

structure Rule where
  deviceClass : Int
  vendorId : Int
  productId : Int
  deviceVersionBcd : Int
  allow : Int
deriving DecidableEq, Repr

/-- Range condition checked by `usbredirfilter_verify` for one rule
(usbredirfilter.c lines 245-255). -/
def ruleOk (r : Rule) : Bool :=
  (-1 ≤ r.deviceClass && r.deviceClass ≤ 255) &&
  (-1 ≤ r.vendorId && r.vendorId ≤ 65535) &&
  (-1 ≤ r.productId && r.productId ≤ 65535) &&
  (-1 ≤ r.deviceVersionBcd && r.deviceVersionBcd ≤ 65535)

/-- `usbredirfilter_verify` (usbredirfilter.c lines 240-257): scan the rules,
returning -EINVAL at the first rule with a field out of range, else 0. -/
def usbredirfilter_verify : List Rule → Int
  | [] => 0
  | r :: rs => if ruleOk r then usbredirfilter_verify rs else -EINVAL

/-- The per-rule match condition of `usbredirfilter_check1`
(usbredirfilter.c lines 168-175): every one of the four wildcardable fields
is either -1 or equal to the device value. -/
def ruleMatches (r : Rule) (deviceClass vendorId productId bcd : ℕ) : Bool :=
  (r.deviceClass = -1 || r.deviceClass = (deviceClass : Int)) &&
  (r.vendorId = -1 || r.vendorId = (vendorId : Int)) &&
  (r.productId = -1 || r.productId = (productId : Int)) &&
  (r.deviceVersionBcd = -1 || r.deviceVersionBcd = (bcd : Int))

/-- `usbredirfilter_check1` (usbredirfilter.c lines 161-182): first matching
rule decides (allow gives 0, deny gives -EPERM); no match defers to the
default-allow policy (0 or -ENOENT).  The C `default_allow` int parameter is
modelled as a `Bool` (it is only tested for zero). -/
def usbredirfilter_check1 : List Rule → ℕ → ℕ → ℕ → ℕ → Bool → Int
  | [], _, _, _, _, defaultAllow => if defaultAllow then 0 else -ENOENT
  | r :: rs, dc, vid, pid, bcd, defaultAllow =>
    if ruleMatches r dc vid pid bcd then (if r.allow ≠ 0 then 0 else -EPERM)
    else usbredirfilter_check1 rs dc vid pid bcd defaultAllow

/-- The skip condition of the interface loop in `usbredirfilter_check`
(usbredirfilter.c lines 209-211): skip a non-boot HID interface row
(class 3, subclass 0, protocol 0) when the dont_skip flag is clear and the
device has more than one interface. -/
def skipIntf (dontSkip : Bool) (count ic isub ipr : ℕ) : Bool :=
  !dontSkip && decide (1 < count) && (ic == 3) && (isub == 0) && (ipr == 0)

/-- The interface loop of `usbredirfilter_check` (usbredirfilter.c lines
208-220): returns the first nonzero row result (or 0) and the number of
skipped rows.  The three parallel C arrays `interface_class`,
`interface_subclass`, `interface_protocol` of length `interface_count` are
modelled as one list of triples. -/
def checkIntfLoop (rules : List Rule) (vid pid bcd : ℕ) (defaultAllow dontSkip : Bool)
    (count : ℕ) : List (ℕ × ℕ × ℕ) → Int × ℕ
  | [] => (0, 0)
  | t :: rest =>
    if skipIntf dontSkip count t.1 t.2.1 t.2.2 then
      let r := checkIntfLoop rules vid pid bcd defaultAllow dontSkip count rest
      (r.1, r.2 + 1)
    else
      let rc := usbredirfilter_check1 rules t.1 vid pid bcd defaultAllow
      if rc ≠ 0 then (rc, 0)
      else checkIntfLoop rules vid pid bcd defaultAllow dontSkip count rest

/-- `usbredirfilter_check` (usbredirfilter.c lines 184-237).  The C
`flags` int is modelled as the two `Bool`s `defaultAllow`
(`usbredirfilter_fl_default_allow`) and `dontSkip`
(`usbredirfilter_fl_dont_skip_non_boot_hid`); the unused
`device_subclass`/`device_protocol` parameters are omitted.  The recursion
with the dont_skip flag forced on mirrors lines 226-234. -/
def usbredirfilter_check (dontSkip : Bool) (rules : List Rule) (deviceClass : ℕ)
    (intfs : List (ℕ × ℕ × ℕ)) (vid pid bcd : ℕ)
    (defaultAllow : Bool) : Int :=
  if usbredirfilter_verify rules ≠ 0 then -EINVAL
  else
    let devRc : Int :=
      if deviceClass ≠ 0x00 ∧ deviceClass ≠ 0xef then
        usbredirfilter_check1 rules deviceClass vid pid bcd defaultAllow
      else 0
    if devRc ≠ 0 then devRc
    else
      let r := checkIntfLoop rules vid pid bcd defaultAllow dontSkip intfs.length intfs
      if r.1 ≠ 0 then r.1
      else if h : 0 < intfs.length ∧ r.2 = intfs.length then
        usbredirfilter_check true rules deviceClass intfs vid pid bcd defaultAllow
      else 0
termination_by (if dontSkip then 0 else 1)
decreasing_by
  have hz : ∀ (rs : List Rule) (v p b : ℕ) (da : Bool) (n : ℕ)
      (l : List (ℕ × ℕ × ℕ)), (checkIntfLoop rs v p b da true n l).2 = 0 := by
    intro rs v p b da n l
    induction l with
    | nil => simp [checkIntfLoop]
    | cons t rest ih =>
      simp only [checkIntfLoop, skipIntf, Bool.not_true, Bool.false_and]
      split
      · simp_all
      · split <;> simp_all
  cases hds : dontSkip
  · simp
  · exfalso
    subst hds
    have h3 : r.2 = 0 := hz rules vid pid bcd defaultAllow intfs.length intfs
    omega

/-! ## Filter: string parsing

`usbredirfilter_string_to_rules` tokenizes with `strtok_r` (split the buffer
at any separator character, successive calls return the maximal nonempty
runs of non-separator characters) and converts each field with
`strtol(token, &ep, 0)`.  We model `strtok_r`'s token sequence as
split-at-separators with empty pieces dropped, and `strtol` with the C
semantics for base 0: skip leading whitespace, optional sign, `0x`/`0X`
prefix selects base 16 (only when a hex digit follows), a leading `0`
selects base 8, otherwise base 10; on overflow the value saturates at the
`long` limits (LP64: 64-bit long); if no digits are converted the end
pointer is the original string. -/

/-- The whitespace class of C `isspace` in the C locale. -/
def isSpaceC (c : Char) : Bool :=
  c = ' ' || c = '\t' || c = '\n' || c = '\x0b' || c = '\x0c' || c = '\r'

/-- Value of a digit character under the given base, if valid. -/
def digitVal (base : ℕ) (c : Char) : Option ℕ :=
  let v : ℕ :=
    if '0' ≤ c ∧ c ≤ '9' then c.toNat - 48
    else if 'a' ≤ c ∧ c ≤ 'f' then c.toNat - 87
    else if 'A' ≤ c ∧ c ≤ 'F' then c.toNat - 55
    else 99
  if v < base then some v else none

/-- Consume a maximal run of digits of the given base, accumulating the
value, and return the value together with the unconsumed rest. -/
def digitsRun (base : ℕ) : List Char → ℕ → ℕ × List Char
  | [], acc => (acc, [])
  | c :: cs, acc =>
    match digitVal base c with
    | some v => digitsRun base cs (acc * base + v)
    | none => (acc, c :: cs)

/-- Magnitude limit of a 64-bit `long`: LONG_MAX for positive results,
2^63 for negative results (|LONG_MIN|). -/
def longClamp (neg : Bool) (v : ℕ) : ℕ :=
  min v (if neg then 2 ^ 63 else 2 ^ 63 - 1)

/-- `strtol(s, &ep, 0)`: returns the parsed `long` and the rest of the
string starting at `ep`.  List heads are inspected with `headD` using a
space as the dummy for the empty list (a space is neither a sign, a
digit, nor `x`, so the dummy never changes the outcome). -/
def strtol (s : List Char) : Int × List Char :=
  let s1 := s.dropWhile isSpaceC
  let neg := s1.headD ' ' = '-'
  let s2 := if s1.headD ' ' = '-' ∨ s1.headD ' ' = '+' then s1.tail else s1
  let parsed : Option (ℕ × List Char) :=
    if s2.headD ' ' = '0' then
      if s2.tail.headD ' ' = 'x' ∨ s2.tail.headD ' ' = 'X' then
        if (digitVal 16 (s2.tail.tail.headD ' ')).isSome then
          some (digitsRun 16 s2.tail.tail 0)
        else some (0, s2.tail)
      else some (digitsRun 8 s2 0)
    else if (digitVal 10 (s2.headD ' ')).isSome then some (digitsRun 10 s2 0)
    else none
  match parsed with
  | none => (0, s)
  | some (v, rest) =>
    let vc := longClamp (decide neg) v
    (if neg then -(vc : Int) else (vc : Int), rest)

/-- Conversion of the `long` result of `strtol` to a C `int` by the
assignment `values[i] = strtol(...)`: two's-complement truncation to
32 bits. -/
def toCInt (v : Int) : Int := (v + 2 ^ 31) % 2 ^ 32 - 2 ^ 31

/-- Split a string at every character of the separator class, keeping the
(possibly empty) pieces.  The result is always nonempty. -/
def splitKeep (sep : List Char) : List Char → List (List Char)
  | [] => [[]]
  | c :: cs =>
    match splitKeep sep cs with
    | [] => [[]]
    | t :: ts => if sep.contains c then [] :: t :: ts else (c :: t) :: ts

/-- The token sequence produced by repeated `strtok_r(·, sep, ·)`:
the nonempty pieces of the split, in order. -/
def tokenize (sep : List Char) (s : List Char) : List (List Char) :=
  (splitKeep sep s).filter (fun t => !t.isEmpty)

/-- The field-parsing loop of `usbredirfilter_string_to_rules`
(usbredirfilter.c lines 84-95): with budget `n` (5 at top level), succeed
with the converted values iff there are exactly `n` tokens each of which
`strtol` consumes entirely. -/
def parseTokens : ℕ → List (List Char) → Option (List Int)
  | 0, toks => if toks.isEmpty then some [] else none
  | _ + 1, [] => none
  | n + 1, tok :: toks =>
    let r := strtol tok
    if r.2.isEmpty then (parseTokens n toks).map (fun vs => toCInt r.1 :: vs)
    else none

/-- Reassemble the `values` int array into the rule struct (field order as
in `Rule`). -/
def mkRule : List Int → Rule
  | [a, b, c, d, e] => ⟨a, b, c, d, e⟩
  | _ => ⟨0, 0, 0, 0, 0⟩

/-- Parse one nonempty rule string: exactly five fully-numeric fields which
pass `usbredirfilter_verify` on the single resulting rule
(usbredirfilter.c lines 83-95). -/
def parseRuleChunk (tokenSep : List Char) (chunk : List Char) : Option Rule :=
  (parseTokens 5 (tokenize tokenSep chunk)).bind (fun vs =>
    if usbredirfilter_verify [mkRule vs] = 0 then some (mkRule vs) else none)

/-- The rule loop of `usbredirfilter_string_to_rules`: parse every chunk,
aborting at the first malformed one. -/
def parseChunks (tokenSep : List Char) : List (List Char) → Option (List Rule)
  | [] => some []
  | chunk :: rest =>
    (parseRuleChunk tokenSep chunk).bind (fun r =>
      (parseChunks tokenSep rest).map (fun rs => r :: rs))

/-- `usbredirfilter_string_to_rules` (usbredirfilter.c lines 34-108).
Returns the C result code together with the rules written through the out
parameters (empty on error).  The -ENOMEM paths (allocation failure) are
not modelled. -/
def usbredirfilter_string_to_rules (tokenSep ruleSep s : List Char) :
    Int × List Rule :=
  if tokenSep.isEmpty || ruleSep.isEmpty then (-EINVAL, [])
  else
    match parseChunks tokenSep (tokenize ruleSep s) with
    | some rules => (0, rules)
    | none => (-EINVAL, [])

/-! ## Filter: serialization -/

/-- Lower-case hex digit character, as produced by printf `%x`. -/
def hexDigitChar (n : ℕ) : Char :=
  if n < 10 then Char.ofNat (48 + n) else Char.ofNat (87 + n)

/-- Hex representation of a natural number, most significant digit first
(empty for 0, like `Nat.digits`). -/
def hexChars (n : ℕ) : List Char :=
  ((Nat.digits 16 n).map hexDigitChar).reverse

/-- printf `%0wx`: zero-padded lower-case hex of minimum width `w`. -/
def hexPad (w n : ℕ) : List Char :=
  List.replicate (w - (hexChars n).length) '0' ++ hexChars n

/-- One serialized rule field (usbredirfilter.c lines 131-149): `-1` for a
wildcard, else `0x` followed by zero-padded hex of width 2 (class) or 4
(vendor/product/bcd). -/
def fieldStr (w : ℕ) (v : Int) : List Char :=
  if v = -1 then ['-', '1'] else '0' :: 'x' :: hexPad w v.toNat

/-- The serialized allow field (usbredirfilter.c line 151):
`rules[i].allow ? 1 : 0` printed with `%d`. -/
def allowStr (v : Int) : List Char := if v ≠ 0 then ['1'] else ['0']

/-- Join pieces with a single separator character between them. -/
def joinSep (c : Char) : List (List Char) → List Char
  | [] => []
  | [x] => x
  | x :: y :: xs => x ++ c :: joinSep c (y :: xs)

/-- One rule as serialized by the loop body of
`usbredirfilter_rules_to_string`: the five fields joined by the first
character of the token separator. -/
def ruleChunkStr (tc : Char) (r : Rule) : List Char :=
  joinSep tc [fieldStr 2 r.deviceClass, fieldStr 4 r.vendorId,
              fieldStr 4 r.productId, fieldStr 4 r.deviceVersionBcd,
              allowStr r.allow]

/-- `usbredirfilter_rules_to_string` (usbredirfilter.c lines 110-159):
NULL (`none`) when verification fails or either separator is empty, else
the rules joined by the first character of the rule separator.  The
-ENOMEM path is not modelled. -/
def usbredirfilter_rules_to_string (rules : List Rule)
    (tokenSep ruleSep : List Char) : Option (List Char) :=
  if usbredirfilter_verify rules ≠ 0 then none
  else if tokenSep.isEmpty || ruleSep.isEmpty then none
  else some (joinSep (ruleSep.headD ' ') (rules.map (ruleChunkStr (tokenSep.headD ' '))))

/-! ## Wire status and transfer-type codes

Modelled from the spec: the wire status values (§6 "Statuses", in protocol
order) and the endpoint transfer types (§3 "Endpoint table"), declared in
the protocol header that is not part of the source tree.  The claims depend
only on the codes being distinct. -/

def usb_redir_success : ℕ := 0

def usb_redir_cancelled : ℕ := 1

def usb_redir_inval : ℕ := 2

def usb_redir_ioerror : ℕ := 3

def usb_redir_stall : ℕ := 4

def usb_redir_timeout : ℕ := 5

def usb_redir_babble : ℕ := 6

def usb_redir_type_control : ℕ := 0

def usb_redir_type_iso : ℕ := 1

def usb_redir_type_bulk : ℕ := 2

def usb_redir_type_interrupt : ℕ := 3

def usb_redir_type_invalid : ℕ := 255

/-! ## Host engine: isochronous backpressure (usbredirhost.c) -/

/-- The `iso_threshold` state of the host (usbredirhost.c struct field):
higher/lower watermarks and the sticky dropping flag. -/
structure IsoThreshold where
  higher : ℕ
  lower : ℕ
  dropping : Bool
deriving DecidableEq, Repr

/-- `usbredirhost_set_iso_threshold` (usbredirhost.c lines 1193-1201):
`reference = pkts_per_transfer * transfer_count * max_packetsize`,
`lower = reference / 2`, `higher = reference * 3`; the dropping flag is not
touched. -/
def usbredirhost_set_iso_threshold (pktsPerTransfer transferCount maxPacketsize : ℕ)
    (t : IsoThreshold) : IsoThreshold :=
  let reference := pktsPerTransfer * transferCount * maxPacketsize
  ⟨reference * 3, reference / 2, t.dropping⟩

/-- `usbredirhost_can_write_iso_package` (usbredirhost.c lines 1043-1072),
given the buffered output size obtained from the parser (or from the
application's buffered_output_size callback): update the dropping flag
(≥ higher turns it on, < lower turns it off, in between unchanged) and
report whether the packet may be written. -/
def usbredirhost_can_write_iso_package (size : ℕ) (t : IsoThreshold) :
    Bool × IsoThreshold :=
  let t' :=
    if size ≥ t.higher then { t with dropping := true }
    else if size < t.lower then { t with dropping := false }
    else t
  (!t'.dropping, t')

/-- An iso data packet as put on the wire by
`usbredirparser_send_iso_packet`. -/
structure IsoPacketOut where
  id : ℕ
  endpoint : ℕ
  status : ℕ
  length : ℕ
  data : List ℕ
deriving DecidableEq, Repr

/-- The isochronous branch of `usbredirhost_send_stream_data`
(usbredirhost.c lines 1074-1104): if more than 800 write buffers are
queued (`usbredirparser_has_data_to_write` returns `write_buf_count`),
the packet is dropped outright; otherwise it is sent exactly when
`usbredirhost_can_write_iso_package` allows it.  Returns the packet sent
(if any) and the updated threshold state. -/
def usbredirhost_send_stream_data_iso (writeBufCount size : ℕ) (t : IsoThreshold)
    (id ep status : ℕ) (data : List ℕ) : Option IsoPacketOut × IsoThreshold :=
  if writeBufCount > 800 then (none, t)
  else
    let r := usbredirhost_can_write_iso_package size t
    if r.1 then (some ⟨id, ep, status, data.length, data⟩, r.2) else (none, r.2)

/-! ## Host engine: stream allocation (usbredirhost.c lines 1204-1304) -/

/-- The endpoint-table fields of one endpoint slot that
`usbredirhost_alloc_stream_unlocked` consults: the endpoint's transfer
type, its max packet size and the transfer count of an already-allocated
stream (0 when none). -/
structure EpAlloc where
  etype : ℕ
  maxPacketsize : ℕ
  transferCount : ℕ
deriving DecidableEq, Repr

/-- `MAX_PACKETS_PER_TRANSFER` (usbredirhost.c line 41). -/
def MAX_PACKETS_PER_TRANSFER : ℕ := 32

/-- `MAX_TRANSFER_COUNT` (usbredirhost.c line 40). -/
def MAX_TRANSFER_COUNT : ℕ := 16

/-- `usbredirhost_alloc_stream_unlocked` (usbredirhost.c lines 1204-1304),
up to and including the allocation loop.  `allocOk i` tells whether the
allocations for ring slot `i` (transfer record and packet buffer) succeed;
the submission of input transfers is outside the modelled scope and is
taken to succeed.  Returns the stream status sent to the peer (if any) and
the final contents of the endpoint's transfer ring (`true` = slot
allocated); on the `alloc_error` path the partially allocated slots are
freed again, leaving the ring empty. -/
def usbredirhost_alloc_stream_unlocked (disconnected : Bool) (ep : EpAlloc)
    (etype pktsPerTransfer pktSize transferCount : ℕ) (allocOk : ℕ → Bool)
    (sendSuccess : Bool) : Option ℕ × List Bool :=
  if disconnected then (some usb_redir_stall, [])
  else if ep.etype ≠ etype then (some usb_redir_stall, [])
  else if pktsPerTransfer < 1 ∨ pktsPerTransfer > MAX_PACKETS_PER_TRANSFER ∨
          transferCount < 1 ∨ transferCount > MAX_TRANSFER_COUNT ∨
          ep.maxPacketsize = 0 ∨ pktSize % ep.maxPacketsize ≠ 0 then
    (some usb_redir_stall, [])
  else if ep.transferCount ≠ 0 then (some usb_redir_inval, [])
  else if (List.range transferCount).all allocOk then
    ((if sendSuccess then some usb_redir_success else none),
     List.replicate transferCount true)
  else (some usb_redir_stall, [])

/-! ## Host engine: per-packet cancellation (usbredirhost.c lines 2002-2119) -/

/-- The original request header stored in a transfer record's union
(usbredirhost.c `union { ... }` in `struct usbredirtransfer`), one shape
per non-stream packet type.  Field layout of the packed wire headers is
Modelled from the spec §6. -/
structure ControlHeader where
  endpoint : ℕ
  request : ℕ
  requesttype : ℕ
  status : ℕ
  value : ℕ
  index : ℕ
  length : ℕ
deriving DecidableEq, Repr

structure BulkHeader where
  endpoint : ℕ
  status : ℕ
  length : ℕ
  streamId : ℕ
  lengthHigh : ℕ
deriving DecidableEq, Repr

structure IntrHeader where
  endpoint : ℕ
  status : ℕ
  length : ℕ
deriving DecidableEq, Repr

inductive OrigHeader where
  | control (h : ControlHeader)
  | bulk (h : BulkHeader)
  | interrupt (h : IntrHeader)
deriving DecidableEq, Repr

/-- A transfer on the host's non-stream transfer list: its packet id, the
cancelled flag and the stored request header (which also determines the
libusb transfer type used in the `switch` of
`usbredirhost_cancel_data_packet`). -/
structure HTransfer where
  id : ℕ
  cancelled : Bool
  hdr : OrigHeader
deriving DecidableEq, Repr

/-- A reply packet queued to the peer. -/
structure Reply where
  id : ℕ
  hdr : OrigHeader
  data : List ℕ
deriving DecidableEq, Repr

/-- The synthetic reply sent by `usbredirhost_cancel_data_packet` for a
found transfer (usbredirhost.c lines 2043-2075): the stored header with
status set to cancelled and length (and, for bulk, length_high) set to 0,
with no data. -/
def syntheticCancelReply (t : HTransfer) : Reply :=
  match t.hdr with
  | .control h => ⟨t.id, .control { h with status := usb_redir_cancelled, length := 0 }, []⟩
  | .bulk h => ⟨t.id, .bulk { h with status := usb_redir_cancelled, length := 0, lengthHigh := 0 }, []⟩
  | .interrupt h => ⟨t.id, .interrupt { h with status := usb_redir_cancelled, length := 0 }, []⟩

/-- `usbredirhost_cancel_data_packet` (usbredirhost.c lines 2002-2080):
scan the non-stream transfer list for the first transfer with the given id
that is not already flagged cancelled; if found, flag it cancelled (the
libusb cancel call has no modelled effect) and send the synthetic
cancelled reply; not finding one is not an error and sends nothing.
Returns the updated list and the replies sent. -/
def usbredirhost_cancel_data_packet (ts : List HTransfer) (tid : ℕ) :
    List HTransfer × List Reply :=
  match ts with
  | [] => ([], [])
  | t :: rest =>
    if !t.cancelled && t.id == tid then
      ({ t with cancelled := true } :: rest, [syntheticCancelReply t])
    else
      let r := usbredirhost_cancel_data_packet rest tid
      (t :: r.1, r.2)

/-- `usbredirhost_control_packet_complete` (usbredirhost.c lines
2082-2119), reply behaviour: the completion sends the original-style reply
(header with the wire status and actual length, plus the IN data) only
when the transfer is not flagged cancelled; a cancelled transfer's
completion sends nothing.  The transfer is removed from the list and freed
in both cases (not modelled here). -/
def usbredirhost_control_packet_complete (t : HTransfer) (wireStatus actualLength : ℕ)
    (data : List ℕ) : List Reply :=
  match t.hdr with
  | .control h =>
    if !t.cancelled then
      [⟨t.id, .control { h with status := wireStatus, length := actualLength },
        if h.endpoint.testBit 7 then data else []⟩]
    else []
  | _ => []

/-- Marking of the first live transfer with the given id, used to state
what `usbredirhost_cancel_data_packet` does to the list. -/
def markFirstMatch (tid : ℕ) : List HTransfer → List HTransfer
  | [] => []
  | t :: rest =>
    if !t.cancelled && t.id == tid then { t with cancelled := true } :: rest
    else t :: markFirstMatch tid rest

/-! ## Codec: byte-level helpers

The parser reads raw bytes into packed little-endian structs (the wire
format is little-endian per spec §6; the C code runs on little-endian
targets).  Buffers are `List ℕ` of byte values; multi-byte fields are
decoded by position. -/

/-- Byte at position `i` of a buffer (0 beyond the end, matching the
zero-initialized C buffers the partial reads land in). -/
def byteAt (l : List ℕ) (i : ℕ) : ℕ := l.getD i 0

/-- Little-endian 16-bit field at byte offset `i`. -/
def u16At (l : List ℕ) (i : ℕ) : ℕ := byteAt l i + 2 ^ 8 * byteAt l (i + 1)

/-- Little-endian 32-bit field at byte offset `i`. -/
def u32At (l : List ℕ) (i : ℕ) : ℕ :=
  byteAt l i + 2 ^ 8 * byteAt l (i + 1) + 2 ^ 16 * byteAt l (i + 2) +
    2 ^ 24 * byteAt l (i + 3)

/-- Little-endian 64-bit field at byte offset `i`. -/
def u64At (l : List ℕ) (i : ℕ) : ℕ := u32At l i + 2 ^ 32 * u32At l (i + 4)

/-- Little-endian encoding of the low 32 bits of `n`. -/
def le32 (n : ℕ) : List ℕ :=
  [n % 2 ^ 8, n / 2 ^ 8 % 2 ^ 8, n / 2 ^ 16 % 2 ^ 8, n / 2 ^ 24 % 2 ^ 8]

/-- Little-endian encoding of the low 64 bits of `n`. -/
def le64 (n : ℕ) : List ℕ := le32 n ++ le32 (n / 2 ^ 32)

/-- Write byte `v` at position `i`, zero-extending the buffer if needed
(the C targets are fixed-size zeroed struct buffers). -/
def setByte (l : List ℕ) (i v : ℕ) : List ℕ :=
  (l ++ List.replicate (i + 1 - l.length) 0).set i v

/-- `memcpy(dest, src, n)` from a caller-provided struct: exactly `n`
bytes, zero-filled if the modelled source list is shorter. -/
def takePad (n : ℕ) (l : List ℕ) : List ℕ :=
  l.take n ++ List.replicate (n - l.length) 0

/-! ## Codec: protocol constants -/

/-- `MAX_BULK_TRANSFER_SIZE` (usbredirparser.c line 35). -/
def MAX_BULK_TRANSFER_SIZE : ℕ := 128 * 1024 * 1024

/-- `MAX_PACKET_SIZE` (usbredirparser.c line 40). -/
def MAX_PACKET_SIZE : ℕ := 1024 + MAX_BULK_TRANSFER_SIZE

/-- `USB_REDIR_CAPS_SIZE`: one 32-bit capability word.  Modelled from the
spec §6, which lists eight capability bits. -/
def USB_REDIR_CAPS_SIZE : ℕ := 1

/-- Capability bit positions.  Modelled from the spec §6 "Capability bit
names" (positions in listed order); the claims depend only on the bits
being distinct and inside the single capability word. -/
def usb_redir_cap_connect_device_version : ℕ := 0

def usb_redir_cap_filter : ℕ := 1

def usb_redir_cap_device_disconnect_ack : ℕ := 2

def usb_redir_cap_ep_info_max_packet_size : ℕ := 3

def usb_redir_cap_64bits_ids : ℕ := 4

def usb_redir_cap_32bits_bulk_length : ℕ := 5

def usb_redir_cap_bulk_receiving : ℕ := 6

def usb_redir_cap_bulk_streams : ℕ := 7

/-- Packet type codes.  Modelled from the spec §6 "Types used in this
design" (listed order; the data-carrying packets start at 100 per the
protocol).  The claims depend only on which codes are known, not on their
values. -/
def usb_redir_hello : ℕ := 0

def usb_redir_device_connect : ℕ := 1

def usb_redir_device_disconnect : ℕ := 2

def usb_redir_reset : ℕ := 3

def usb_redir_interface_info : ℕ := 4

def usb_redir_ep_info : ℕ := 5

def usb_redir_set_configuration : ℕ := 6

def usb_redir_get_configuration : ℕ := 7

def usb_redir_configuration_status : ℕ := 8

def usb_redir_set_alt_setting : ℕ := 9

def usb_redir_get_alt_setting : ℕ := 10

def usb_redir_alt_setting_status : ℕ := 11

def usb_redir_start_iso_stream : ℕ := 12

def usb_redir_stop_iso_stream : ℕ := 13

def usb_redir_iso_stream_status : ℕ := 14

def usb_redir_start_interrupt_receiving : ℕ := 15

def usb_redir_stop_interrupt_receiving : ℕ := 16

def usb_redir_interrupt_receiving_status : ℕ := 17

def usb_redir_alloc_bulk_streams : ℕ := 18

def usb_redir_free_bulk_streams : ℕ := 19

def usb_redir_bulk_streams_status : ℕ := 20

def usb_redir_cancel_data_packet : ℕ := 21

def usb_redir_filter_reject : ℕ := 22

def usb_redir_filter_filter : ℕ := 23

def usb_redir_device_disconnect_ack : ℕ := 24

def usb_redir_start_bulk_receiving : ℕ := 25

def usb_redir_stop_bulk_receiving : ℕ := 26

def usb_redir_bulk_receiving_status : ℕ := 27

def usb_redir_control_packet : ℕ := 100

def usb_redir_bulk_packet : ℕ := 101

def usb_redir_iso_packet : ℕ := 102

def usb_redir_interrupt_packet : ℕ := 103

def usb_redir_buffered_bulk_packet : ℕ := 104

/-! ## Codec: capability words -/

/-- `usbredirparser_caps_get_cap` (usbredirparser.c lines 269-281) on the
single capability word: out-of-range bits read as 0. -/
def capsGetCap (caps cap : ℕ) : Bool :=
  if cap / 32 ≥ USB_REDIR_CAPS_SIZE then false else caps.testBit cap

/-- Both sides advertise the capability (the pattern
`usbredirparser_have_cap(...) && usbredirparser_peer_has_cap(...)`). -/
def bothCaps (ourCaps peerCaps cap : ℕ) : Bool :=
  capsGetCap ourCaps cap && capsGetCap peerCaps cap

/-! ## Codec: parser state

`struct usbredirparser_priv` (usbredirparser.c lines 63-88).  The read
cursors `header_read`, `type_header_read`, `data_read` are the lengths of
the byte lists holding what has been read so far; `write_buf`/
`write_buf_count`/`write_buf_total_size` are represented by the single
buffer list (count and total size are the derived list length and length
sum, which the C code keeps in sync, see
`usbredirparser_assert_invariants`).  Of the flags only
`usbredirparser_fl_usb_host` is modelled (the others do not affect the
embedded operations). -/

structure WBuf where
  buf : List ℕ
  pos : ℕ
deriving DecidableEq, Repr

structure PState where
  flUsbHost : Bool
  ourCaps : ℕ
  peerCaps : ℕ
  havePeerCaps : Bool
  headerBytes : List ℕ
  typeHeaderLen : ℕ
  typeHeaderBytes : List ℕ
  dataLen : ℕ
  dataBytes : List ℕ
  toSkip : ℕ
  writeBuf : List WBuf
deriving DecidableEq, Repr

/-- The unwritten part of a queued write buffer. -/
def wbufUnwritten (w : WBuf) : List ℕ := w.buf.drop w.pos

/-- `usbredirparser_have_cap` (usbredirparser.c lines 306-312). -/
def usbredirparser_have_cap (s : PState) (cap : ℕ) : Bool := capsGetCap s.ourCaps cap

/-- `usbredirparser_peer_has_cap` (usbredirparser.c lines 298-304). -/
def usbredirparser_peer_has_cap (s : PState) (cap : ℕ) : Bool := capsGetCap s.peerCaps cap

/-- `usbredirparser_using_32bits_ids` (usbredirparser.c lines 314-318) on
the two capability words it reads. -/
def using32Caps (ourCaps peerCaps : ℕ) : Bool :=
  !capsGetCap ourCaps usb_redir_cap_64bits_ids ||
  !capsGetCap peerCaps usb_redir_cap_64bits_ids

/-- `usbredirparser_using_32bits_ids` (usbredirparser.c lines 314-318). -/
def usbredirparser_using_32bits_ids (s : PState) : Bool :=
  using32Caps s.ourCaps s.peerCaps

/-- `usbredirparser_get_header_len` (usbredirparser.c lines 357-363) on
the capability words: `sizeof(struct usb_redir_header_32bit_id)` = 12 or
`sizeof(struct usb_redir_header)` = 16 (u32 type, u32 length, u32/u64 id;
sizes Modelled from the spec §6 wire format). -/
def headerLenCaps (ourCaps peerCaps : ℕ) : ℕ :=
  if using32Caps ourCaps peerCaps then 12 else 16

/-- `usbredirparser_get_header_len` (usbredirparser.c lines 357-363). -/
def usbredirparser_get_header_len (s : PState) : ℕ :=
  headerLenCaps s.ourCaps s.peerCaps

/-- `usbredirparser_get_type_header_len` (usbredirparser.c lines 365-583),
with the parser fields it reads (`flags & usbredirparser_fl_usb_host`, the
two capability words) passed explicitly.  The sizeof values of the packed
type-header structs are Modelled from the spec §6 field lists.  -1 means
the type is unknown or illegal in this direction. -/
def usbredirparser_get_type_header_len (usbHost : Bool) (ourCaps peerCaps typ : ℕ)
    (send : Bool) : Int :=
  let commandForHost : Bool := if send then !usbHost else usbHost
  if typ = usb_redir_hello then 64
  else if typ = usb_redir_device_connect then
    (if !commandForHost then
       (if bothCaps ourCaps peerCaps usb_redir_cap_connect_device_version then 10 else 8)
     else -1)
  else if typ = usb_redir_device_disconnect then (if !commandForHost then 0 else -1)
  else if typ = usb_redir_reset then (if commandForHost then 0 else -1)
  else if typ = usb_redir_interface_info then (if !commandForHost then 132 else -1)
  else if typ = usb_redir_ep_info then
    (if !commandForHost then
       (if bothCaps ourCaps peerCaps usb_redir_cap_bulk_streams then 288
        else if bothCaps ourCaps peerCaps usb_redir_cap_ep_info_max_packet_size then 160
        else 96)
     else -1)
  else if typ = usb_redir_set_configuration then (if commandForHost then 1 else -1)
  else if typ = usb_redir_get_configuration then (if commandForHost then 0 else -1)
  else if typ = usb_redir_configuration_status then (if !commandForHost then 2 else -1)
  else if typ = usb_redir_set_alt_setting then (if commandForHost then 2 else -1)
  else if typ = usb_redir_get_alt_setting then (if commandForHost then 1 else -1)
  else if typ = usb_redir_alt_setting_status then (if !commandForHost then 3 else -1)
  else if typ = usb_redir_start_iso_stream then (if commandForHost then 3 else -1)
  else if typ = usb_redir_stop_iso_stream then (if commandForHost then 1 else -1)
  else if typ = usb_redir_iso_stream_status then (if !commandForHost then 2 else -1)
  else if typ = usb_redir_start_interrupt_receiving then (if commandForHost then 1 else -1)
  else if typ = usb_redir_stop_interrupt_receiving then (if commandForHost then 1 else -1)
  else if typ = usb_redir_interrupt_receiving_status then (if !commandForHost then 2 else -1)
  else if typ = usb_redir_alloc_bulk_streams then (if commandForHost then 8 else -1)
  else if typ = usb_redir_free_bulk_streams then (if commandForHost then 4 else -1)
  else if typ = usb_redir_bulk_streams_status then (if !commandForHost then 9 else -1)
  else if typ = usb_redir_cancel_data_packet then (if commandForHost then 0 else -1)
  else if typ = usb_redir_filter_reject then (if commandForHost then 0 else -1)
  else if typ = usb_redir_filter_filter then 0
  else if typ = usb_redir_device_disconnect_ack then (if commandForHost then 0 else -1)
  else if typ = usb_redir_start_bulk_receiving then (if commandForHost then 10 else -1)
  else if typ = usb_redir_stop_bulk_receiving then (if commandForHost then 5 else -1)
  else if typ = usb_redir_bulk_receiving_status then (if !commandForHost then 6 else -1)
  else if typ = usb_redir_control_packet then 10
  else if typ = usb_redir_bulk_packet then
    (if bothCaps ourCaps peerCaps usb_redir_cap_32bits_bulk_length then 10 else 8)
  else if typ = usb_redir_iso_packet then 4
  else if typ = usb_redir_interrupt_packet then 4
  else if typ = usb_redir_buffered_bulk_packet then (if !commandForHost then 10 else -1)
  else -1

/-- `usbredirparser_expect_extra_data` (usbredirparser.c lines 585-602). -/
def usbredirparser_expect_extra_data (typ : ℕ) : Bool :=
  typ = usb_redir_hello || typ = usb_redir_filter_filter ||
  typ = usb_redir_control_packet || typ = usb_redir_bulk_packet ||
  typ = usb_redir_iso_packet || typ = usb_redir_interrupt_packet ||
  typ = usb_redir_buffered_bulk_packet

/-- `usbredirparser_verify_bulk_recv_cap` (usbredirparser.c lines
604-618). -/
def verifyBulkRecvCap (ourCaps peerCaps : ℕ) (send : Bool) : Bool :=
  !((send && !capsGetCap peerCaps usb_redir_cap_bulk_receiving) ||
    (!send && !capsGetCap ourCaps usb_redir_cap_bulk_receiving))

/-- The capability checks of filter_reject / filter_filter /
device_disconnect_ack in `usbredirparser_verify_type_header`: on send the
peer must have the capability, on receive we must. -/
def verifyDirCap (ourCaps peerCaps cap : ℕ) (send : Bool) : Bool :=
  !((send && !capsGetCap peerCaps cap) || (!send && !capsGetCap ourCaps cap))

/-- Endpoint direction bit (`ep & 0x80`). -/
def epIn (ep : ℕ) : Bool := ep.testBit 7

/-- `usbredirparser_verify_type_header` (usbredirparser.c lines 620-838),
with the parser fields it reads passed explicitly.  `th` is the raw
type-header byte buffer, `data` the payload (a NULL data pointer is the
empty list; the parser allocates data exactly when `data_len` is nonzero).
Returns the verdict and the (possibly rewritten) type header: for a bulk
packet received without the 32-bits-bulk-length capability the C code
zeroes the `length_high` field in the header struct (bytes 8-9).  Field
offsets in the packed structs are Modelled from the spec §6. -/
def usbredirparser_verify_type_header (usbHost : Bool) (ourCaps peerCaps typ : ℕ)
    (th data : List ℕ) (send : Bool) : Bool × List ℕ :=
  let commandForHost : Bool := if send then !usbHost else usbHost
  -- stage 1: the type switch; yields the verdict so far, the possibly
  -- rewritten header, and for data packets the endpoint and header length
  let stage1 : Bool × List ℕ × Option ℕ × ℕ :=
    if typ = usb_redir_interface_info then (u32At th 0 ≤ 32, th, none, 0)
    else if typ = usb_redir_start_interrupt_receiving then (epIn (byteAt th 0), th, none, 0)
    else if typ = usb_redir_stop_interrupt_receiving then (epIn (byteAt th 0), th, none, 0)
    else if typ = usb_redir_interrupt_receiving_status then (epIn (byteAt th 1), th, none, 0)
    else if typ = usb_redir_filter_reject then
      (verifyDirCap ourCaps peerCaps usb_redir_cap_filter send, th, none, 0)
    else if typ = usb_redir_filter_filter then
      (verifyDirCap ourCaps peerCaps usb_redir_cap_filter send &&
         decide (1 ≤ data.length) && byteAt data (data.length - 1) == 0, th, none, 0)
    else if typ = usb_redir_device_disconnect_ack then
      (verifyDirCap ourCaps peerCaps usb_redir_cap_device_disconnect_ack send, th, none, 0)
    else if typ = usb_redir_start_bulk_receiving then
      (verifyBulkRecvCap ourCaps peerCaps send &&
         decide (u32At th 4 ≤ MAX_BULK_TRANSFER_SIZE) && epIn (byteAt th 8), th, none, 0)
    else if typ = usb_redir_stop_bulk_receiving then
      (verifyBulkRecvCap ourCaps peerCaps send && epIn (byteAt th 4), th, none, 0)
    else if typ = usb_redir_bulk_receiving_status then
      (verifyBulkRecvCap ourCaps peerCaps send && epIn (byteAt th 4), th, none, 0)
    else if typ = usb_redir_control_packet then
      (true, th, some (byteAt th 0), u16At th 8)
    else if typ = usb_redir_bulk_packet then
      if bothCaps ourCaps peerCaps usb_redir_cap_32bits_bulk_length then
        let len := 2 ^ 16 * u16At th 8 + u16At th 2
        (decide (len ≤ MAX_BULK_TRANSFER_SIZE), th, some (byteAt th 0), len)
      else
        let th' := if !send then setByte (setByte th 8 0) 9 0 else th
        (decide (u16At th 2 ≤ MAX_BULK_TRANSFER_SIZE), th', some (byteAt th 0), u16At th 2)
    else if typ = usb_redir_iso_packet then
      (true, th, some (byteAt th 0), u16At th 2)
    else if typ = usb_redir_interrupt_packet then
      (true, th, some (byteAt th 0), u16At th 2)
    else if typ = usb_redir_buffered_bulk_packet then
      (verifyBulkRecvCap ourCaps peerCaps send &&
         decide (u32At th 4 ≤ MAX_BULK_TRANSFER_SIZE), th, some (byteAt th 8), u32At th 4)
    else (true, th, none, 0)
  match stage1 with
  | (false, th', _, _) => (false, th')
  | (true, th', none, _) => (true, th')
  | (true, th', some ep, len) =>
    -- stage 2 (usbredirparser.c lines 804-835): data is expected exactly
    -- when the endpoint direction points towards us
    let expectExtra := (epIn ep && !commandForHost) || (!epIn ep && commandForHost)
    if expectExtra then
      (data.length == len, th')
    else if !data.isEmpty then (false, th')
    else if typ = usb_redir_iso_packet then (false, th')
    else if typ = usb_redir_interrupt_packet && commandForHost then (false, th')
    else if typ = usb_redir_buffered_bulk_packet then (false, th')
    else (true, th')

/-- `usbredirparser_queue` (usbredirparser.c lines 1210-1273): validate,
build the contiguous `[header][type_header][data]` buffer and append it to
the write-buffer FIFO.  On an unknown type or failed validation nothing is
queued.  A 64-bit id is stored in the 16-byte header form; in the 12-byte
form the id is truncated to 32 bits by the assignment to the u32 field. -/
def usbredirparser_queue (s : PState) (typ pid : ℕ) (thIn data : List ℕ) : PState :=
  let thlI := usbredirparser_get_type_header_len s.flUsbHost s.ourCaps s.peerCaps typ true
  if thlI < 0 then s
  else if !(usbredirparser_verify_type_header s.flUsbHost s.ourCaps s.peerCaps typ
              thIn data true).1 then s
  else
    let thl := thlI.toNat
    let hdr := le32 typ ++ le32 (thl + data.length) ++
      (if usbredirparser_using_32bits_ids s then le32 pid else le64 pid)
    { s with writeBuf := s.writeBuf ++ [⟨hdr ++ takePad thl thIn ++ data, 0⟩] }

/-! ## Codec: inbound dispatch -/

/-- The id read from the completed fixed header
(usbredirparser.c lines 845-850): the u32 or u64 field at offset 8. -/
def decodePacketId (s : PState) : ℕ :=
  if usbredirparser_using_32bits_ids s then u32At s.headerBytes 8
  else u64At s.headerBytes 8

/-- `USBREDIRPARSER_SERIALIZE_MAGIC`.  Modelled from the spec §4.2
(0x55525031); the value lives in the missing public header. -/
def USBREDIRPARSER_SERIALIZE_MAGIC : ℕ := 0x55525031

/-- `serialize_data`: u32 length followed by the bytes. -/
def serData (b : List ℕ) : List ℕ := le32 b.length ++ b

/-- `usbredirparser_serialize` (usbredirparser.c lines 1716-1795).  The
write-buffer loop stores only the unwritten part of each buffer; the
total length is patched into bytes 4..7 at the end.  The allocation
failure paths are not modelled. -/
def usbredirparser_serialize (s : PState) : List ℕ :=
  let rest :=
    serData (le32 s.ourCaps) ++
    (if s.havePeerCaps then serData (le32 s.peerCaps) else le32 0) ++
    le32 s.toSkip ++
    serData s.headerBytes ++
    serData s.typeHeaderBytes ++
    serData s.dataBytes ++
    le32 s.writeBuf.length ++
    (s.writeBuf.map (fun w => serData (wbufUnwritten w))).flatten
  le32 USBREDIRPARSER_SERIALIZE_MAGIC ++ le32 (8 + rest.length) ++ rest

/-- `unserialize_int` (usbredirparser.c lines 1655-1669): consume a u32;
fails when fewer than 4 bytes remain. -/
def parseU32 : List ℕ → Option (ℕ × List ℕ)
  | b0 :: b1 :: b2 :: b3 :: rest =>
    some (b0 + 2 ^ 8 * b1 + 2 ^ 16 * b2 + 2 ^ 24 * b3, rest)
  | _ => none

/-- `unserialize_data` (usbredirparser.c lines 1671-1714): consume a u32
length and that many bytes.  `cap` is the size of a preallocated
destination buffer (`none` when the C code mallocs a fresh buffer): a
stored length above the cap is a "buffer overrun" error.  Unlike the C
code (which would read out of bounds) a stored length above the remaining
input also fails; on the blobs produced by `usbredirparser_serialize`
this case cannot arise. -/
def parseChunk (cap : Option ℕ) (blob : List ℕ) : Option (List ℕ × List ℕ) :=
  match parseU32 blob with
  | none => none
  | some (len, rest) =>
    if (cap.getD len < len) ∨ rest.length < len then none
    else some (rest.take len, rest.drop len)

/-- The write-buffer restore loop of `usbredirparser_unserialize`
(usbredirparser.c lines 1958-1990): read `n` length-prefixed buffers,
rejecting empty ones, and rebuild the FIFO in order with the write cursor
at 0. -/
def parseWbufs : ℕ → List ℕ → Option (List WBuf × List ℕ)
  | 0, blob => some ([], blob)
  | n + 1, blob =>
    match parseChunk none blob with
    | none => none
    | some (l, rest) =>
      if l.isEmpty then none
      else
        match parseWbufs n rest with
        | none => none
        | some (ws, r2) => some (⟨l, 0⟩ :: ws, r2)

/-- Overwriting the first `b.length` bytes of the 32-bit word `w` with the
stored bytes `b` (the partial `memcpy` of `unserialize_data` into a
capability word). -/
def overlayWord (w : ℕ) (b : List ℕ) : ℕ := u32At (b ++ (le32 w).drop b.length) 0

/-- `usbredirparser_unserialize` (usbredirparser.c lines 1797-2000),
mirroring the C control flow: magic check; pristine check (no queued
write buffers, no allocated data buffer, all three read cursors zero);
total length check; our-caps restore with rejection when the stored caps
contain a bit we lack; peer-caps restore (a nonzero stored length sets
`have_peer_caps`); `to_skip`; the header bytes (validated and the
type-header length derived when the header is complete); the type-header
bytes; the data bytes (kept only when header and type header are complete
and the packet has data); the write buffers; and rejection of trailing
bytes.  Returns the restored state or `none` (-1 in C). -/
def usbredirparser_unserialize (s : PState) (blob : List ℕ) : Option PState :=
  match parseU32 blob with
  | none => none
  | some (magic, r1) =>
  if magic ≠ USBREDIRPARSER_SERIALIZE_MAGIC then none
  else if ¬(s.writeBuf = [] ∧ s.dataLen = 0 ∧ s.headerBytes = [] ∧
            s.typeHeaderBytes = [] ∧ s.dataBytes = []) then none
  else
  match parseU32 r1 with
  | none => none
  | some (len, r2) =>
  if len ≠ blob.length then none
  else
  match parseChunk (some 4) r2 with
  | none => none
  | some (ourB, r3) =>
  let newOur := overlayWord s.ourCaps ourB
  if newOur &&& ((2 ^ 32 - 1) ^^^ s.ourCaps % 2 ^ 32) ≠ 0 then none
  else
  match parseChunk (some 4) r3 with
  | none => none
  | some (peerB, r4) =>
  let s4 : PState := { s with ourCaps := newOur, peerCaps := overlayWord s.peerCaps peerB,
                              havePeerCaps := if peerB.length ≠ 0 then true else s.havePeerCaps }
  match parseU32 r4 with
  | none => none
  | some (skip, r5) =>
  match parseChunk (some (usbredirparser_get_header_len s4)) r5 with
  | none => none
  | some (hdrB, r6) =>
  let hdrComplete := hdrB.length = usbredirparser_get_header_len s4
  let hdrLenField := u32At hdrB 4
  let thlCheck : Option ℕ :=
    if hdrComplete then
      if MAX_PACKET_SIZE < hdrLenField then none
      else
        let thl := usbredirparser_get_type_header_len s4.flUsbHost s4.ourCaps s4.peerCaps
                     (u32At hdrB 0) false
        if thl < 0 ∨ 288 < thl ∨ hdrLenField < thl.toNat ∨
           (thl.toNat < hdrLenField ∧ !usbredirparser_expect_extra_data (u32At hdrB 0)) then
          none
        else some thl.toNat
    else some 0
  match thlCheck with
  | none => none
  | some thl =>
  match parseChunk (some thl) r6 with
  | none => none
  | some (thB, r7) =>
  let thRead := if hdrComplete then thB.length else 0
  let dataLen0 := if thRead = thl then hdrLenField - thl else 0
  match parseChunk (some dataLen0) r7 with
  | none => none
  | some (dataB, r8) =>
  let keepData := hdrComplete ∧ thRead = thl ∧ 0 < dataLen0
  match parseU32 r8 with
  | none => none
  | some (wcount, r9) =>
  match parseWbufs wcount r9 with
  | none => none
  | some (ws, r10) =>
  if ¬r10.isEmpty then none
  else
    some { s4 with
      toSkip := skip,
      headerBytes := hdrB,
      typeHeaderLen := thl,
      typeHeaderBytes := thB,
      dataLen := if keepData then dataLen0 else 0,
      dataBytes := if keepData then dataB else [],
      writeBuf := ws }

/-- The pristine parser demanded by `usbredirparser_unserialize`: freshly
created (`usbredirparser_create` is a `calloc`) and configured with the
usb-host flag and our capability word. -/
def pristineState (usbHost : Bool) (ourCaps : ℕ) : PState :=
  ⟨usbHost, ourCaps, 0, false, [], 0, [], 0, [], 0, []⟩

/-- The states a live parser can be in, as far as
`usbredirparser_serialize`/`usbredirparser_unserialize` are concerned:
the invariants `usbredirparser_assert_invariants` checks (cursor bounds,
write-buffer cursor bounds) together with the facts maintained by
`usbredirparser_do_read` (a completed header has passed the framing
checks and fixed the type-header and data lengths; nothing is read past
the fixed header before it completes; data is only read once the type
header is complete) and the word sizes of the C fields. -/
def ValidState (s : PState) : Bool :=
  s.ourCaps < 2 ^ 32 && s.peerCaps < 2 ^ 32 &&
  (s.havePeerCaps || s.peerCaps == 0) &&
  s.toSkip < 2 ^ 32 &&
  decide (s.headerBytes.length ≤ usbredirparser_get_header_len s) &&
  decide (s.typeHeaderBytes.length ≤ s.typeHeaderLen) &&
  decide (s.dataBytes.length ≤ s.dataLen) &&
  (s.dataBytes.isEmpty || s.typeHeaderBytes.length == s.typeHeaderLen) &&
  (if s.headerBytes.length = usbredirparser_get_header_len s then
     let thl := usbredirparser_get_type_header_len s.flUsbHost s.ourCaps s.peerCaps
                  (u32At s.headerBytes 0) false
     decide (0 ≤ thl) && decide (thl ≤ 288) &&
     decide (u32At s.headerBytes 4 ≤ MAX_PACKET_SIZE) &&
     decide (thl.toNat ≤ u32At s.headerBytes 4) &&
     (decide (u32At s.headerBytes 4 = thl.toNat) ||
        usbredirparser_expect_extra_data (u32At s.headerBytes 0)) &&
     s.typeHeaderLen == thl.toNat &&
     s.dataLen == u32At s.headerBytes 4 - thl.toNat
   else
     s.typeHeaderLen == 0 && s.typeHeaderBytes.isEmpty &&
     s.dataLen == 0 && s.dataBytes.isEmpty) &&
  s.writeBuf.all (fun w => decide (w.pos < w.buf.length) &&
    decide (w.buf.length < 2 ^ 32)) &&
  decide (s.writeBuf.length < 2 ^ 32) &&
  decide ((usbredirparser_serialize s).length < 2 ^ 32)

/-! ## Statement-side definitions

Definitions used to state the claims, written from the specification's
wording, to be compared against the source-derived functions above. -/

/-- Claim-side row decision (spec §4.1 "Match"): scan the rule list in
order, the first rule whose four wildcardable fields all match decides
(allow → 0, deny → -EPERM); a row matched by no rule yields 0 under
default_allow and -ENOENT otherwise. -/
def firstRuleDecision (rules : List Rule) (cls vid pid bcd : ℕ)
    (defaultAllow : Bool) : Int :=
  match rules.find? (fun r => ruleMatches r cls vid pid bcd) with
  | some r => if r.allow ≠ 0 then 0 else -EPERM
  | none => if defaultAllow then 0 else -ENOENT

/-- Claim-side skip predicate (claim C7): an interface row is skipped
exactly when the dont_skip flag is clear, interface_count > 1 and the row
is class 0x03, subclass 0x00, protocol 0x00. -/
def rowSkipped (dontSkip : Bool) (count : ℕ) (t : ℕ × ℕ × ℕ) : Bool :=
  !dontSkip && decide (1 < count) && (t.1 == 0x03) && (t.2.1 == 0x00) && (t.2.2 == 0x00)

/-- Claim-side considered rows (claim C7): the device row (unless device
class is 0x00 or 0xEF) followed by the unskipped interface rows. -/
def consideredRows (dontSkip : Bool) (deviceClass : ℕ)
    (intfs : List (ℕ × ℕ × ℕ)) : List ℕ :=
  (if deviceClass = 0x00 ∨ deviceClass = 0xef then [] else [deviceClass]) ++
  (intfs.filter (fun t => !rowSkipped dontSkip intfs.length t)).map (fun t => t.1)

/-- First nonzero result of a row list, 0 if all rows pass. -/
def firstNonzero : List Int → Int
  | [] => 0
  | rc :: rest => if rc ≠ 0 then rc else firstNonzero rest

/-- Claim-side filter check (claim C7, from the spec's wording): verified
rules; evaluate the considered rows in order, each decided by the first
matching rule; if interface rows exist and all were skipped, redo once
with the dont_skip flag forced on. -/
def usbredirfilter_checkSpec (dontSkip : Bool) (rules : List Rule)
    (deviceClass : ℕ) (intfs : List (ℕ × ℕ × ℕ)) (vid pid bcd : ℕ)
    (defaultAllow : Bool) : Int :=
  if usbredirfilter_verify rules ≠ 0 then -EINVAL
  else
    let pass := fun ds => firstNonzero ((consideredRows ds deviceClass intfs).map
      (fun cls => firstRuleDecision rules cls vid pid bcd defaultAllow))
    let r1 := pass dontSkip
    if r1 ≠ 0 then r1
    else if 0 < intfs.length ∧ intfs.all (rowSkipped dontSkip intfs.length) then
      pass true
    else 0

/-- Rule produced from one rule chunk: the fields converted by `strtol`
and narrowed to C int. -/
def chunkRule (tokenSep chunk : List Char) : Rule :=
  mkRule ((tokenize tokenSep chunk).map (fun t => toCInt (strtol t).1))

/-- Claim-side well-formedness of one rule chunk (claim C9): exactly five
fields (no missing and no extra field), no field with trailing
non-numeric content, and every field within its range. -/
def chunkWellFormed (tokenSep chunk : List Char) : Bool :=
  (tokenize tokenSep chunk).length == 5 &&
  (tokenize tokenSep chunk).all (fun t => (strtol t).2.isEmpty) &&
  ruleOk (chunkRule tokenSep chunk)

/-- The string `usbredirfilter_rules_to_string` builds for a verified rule
list with token separator "," and rule separator "|". -/
def serializedRules (rules : List Rule) : List Char :=
  joinSep '|' (rules.map (ruleChunkStr ','))

/-- The rule list recovered by parsing a serialized rule list: the four
wildcardable fields round-trip; the allow field is normalized by the
serializer (`allow ? 1 : 0`). -/
def normAllow (r : Rule) : Rule :=
  { r with allow := if r.allow ≠ 0 then 1 else 0 }

/-- Projection of the status field of a stored packet header. -/
def hdrStatus : OrigHeader → ℕ
  | .control h => h.status
  | .bulk h => h.status
  | .interrupt h => h.status

/-- Projection of the length field of a stored packet header. -/
def hdrLength : OrigHeader → ℕ
  | .control h => h.length
  | .bulk h => h.length
  | .interrupt h => h.length

/-- A stored packet header with its status and length (and bulk
length_high) fields blanked, to state that a synthetic reply carries the
original header in all other fields. -/
def scrubHdr : OrigHeader → OrigHeader
  | .control h => .control { h with status := 0, length := 0 }
  | .bulk h => .bulk { h with status := 0, length := 0, lengthHigh := 0 }
  | .interrupt h => .interrupt { h with status := 0, length := 0 }

theorem check1_eq_firstRuleDecision (rules : List Rule) (cls vid pid bcd : ℕ)
    (da : Bool) :
    usbredirfilter_check1 rules cls vid pid bcd da =
      firstRuleDecision rules cls vid pid bcd da := by
  induction rules with
  | nil => simp [usbredirfilter_check1, firstRuleDecision]
  | cons r rs ih =>
    by_cases hm : ruleMatches r cls vid pid bcd
    · simp [usbredirfilter_check1, firstRuleDecision, List.find?, hm]
    · simp only [usbredirfilter_check1, firstRuleDecision, List.find?, hm,
        if_false, Bool.false_eq_true] at *
      exact ih

theorem skipIntf_eq_rowSkipped (ds : Bool) (count : ℕ) (t : ℕ × ℕ × ℕ) :
    skipIntf ds count t.1 t.2.1 t.2.2 = rowSkipped ds count t := rfl

theorem checkIntfLoop_fst (rules : List Rule) (vid pid bcd : ℕ) (da ds : Bool)
    (count : ℕ) (l : List (ℕ × ℕ × ℕ)) :
    (checkIntfLoop rules vid pid bcd da ds count l).1 =
      firstNonzero ((l.filter (fun t => !rowSkipped ds count t)).map
        (fun t => firstRuleDecision rules t.1 vid pid bcd da)) := by
  induction l with
  | nil => simp [checkIntfLoop, firstNonzero]
  | cons t rest ih =>
    by_cases hs : rowSkipped ds count t
    · simp [checkIntfLoop, skipIntf_eq_rowSkipped, hs, ih]
    · simp only [checkIntfLoop, skipIntf_eq_rowSkipped, hs, if_false,
        Bool.false_eq_true, List.filter_cons, Bool.not_false, List.map_cons,
        check1_eq_firstRuleDecision]
      by_cases hrc : firstRuleDecision rules t.1 vid pid bcd da = 0
      · simp [hrc, firstNonzero, ih]
      · simp [hrc, firstNonzero]

theorem checkIntfLoop_snd (rules : List Rule) (vid pid bcd : ℕ) (da ds : Bool)
    (count : ℕ) (l : List (ℕ × ℕ × ℕ))
    (h : (checkIntfLoop rules vid pid bcd da ds count l).1 = 0) :
    (checkIntfLoop rules vid pid bcd da ds count l).2 =
      l.countP (rowSkipped ds count) := by
  induction l with
  | nil => simp [checkIntfLoop]
  | cons t rest ih =>
    by_cases hs : rowSkipped ds count t
    · simp only [checkIntfLoop, skipIntf_eq_rowSkipped, hs, if_true] at h ⊢
      simp only [List.countP_cons, hs, if_pos]
      simp [ih h]
    · simp only [checkIntfLoop, skipIntf_eq_rowSkipped, hs, if_false,
        Bool.false_eq_true, check1_eq_firstRuleDecision] at h ⊢
      by_cases hrc : firstRuleDecision rules t.1 vid pid bcd da = 0
      · rw [if_neg (by simp [hrc])] at h ⊢
        rw [ih h]
        simp [List.countP_cons, hs]
      · rw [if_pos (by simp [hrc])] at h
        exact absurd h hrc

theorem checkIntfLoop_true_snd (rules : List Rule) (vid pid bcd : ℕ) (da : Bool)
    (count : ℕ) (l : List (ℕ × ℕ × ℕ)) :
    (checkIntfLoop rules vid pid bcd da true count l).2 = 0 := by
  induction l with
  | nil => simp [checkIntfLoop]
  | cons t rest ih =>
    simp only [checkIntfLoop, skipIntf, Bool.not_true, Bool.false_and]
    split
    · simp_all
    · split <;> simp_all

theorem firstNonzero_append (a b : List Int) :
    firstNonzero (a ++ b) =
      if firstNonzero a ≠ 0 then firstNonzero a else firstNonzero b := by
  induction a with
  | nil => simp [firstNonzero]
  | cons rc rest ih =>
    by_cases h : rc = 0 <;> simp [firstNonzero, h, ih]

theorem rowSkipped_true (count : ℕ) (t : ℕ × ℕ × ℕ) :
    rowSkipped true count t = false := by simp [rowSkipped]

theorem pass_decomp (ds : Bool) (rules : List Rule) (dc : ℕ)
    (intfs : List (ℕ × ℕ × ℕ)) (vid pid bcd : ℕ) (da : Bool) :
    firstNonzero ((consideredRows ds dc intfs).map
        (fun cls => firstRuleDecision rules cls vid pid bcd da)) =
      (if (if dc ≠ 0x00 ∧ dc ≠ 0xef then
             usbredirfilter_check1 rules dc vid pid bcd da else 0) ≠ 0 then
         (if dc ≠ 0x00 ∧ dc ≠ 0xef then
             usbredirfilter_check1 rules dc vid pid bcd da else 0)
       else (checkIntfLoop rules vid pid bcd da ds intfs.length intfs).1) := by
  simp only [consideredRows, List.map_append, firstNonzero_append, List.map_map]
  by_cases hdc : dc = 0x00 ∨ dc = 0xef
  · have h1 : ¬(dc ≠ 0x00 ∧ dc ≠ 0xef) := by tauto
    simp only [if_pos hdc, if_neg h1, List.map_nil, firstNonzero]
    simp [checkIntfLoop_fst, Function.comp_def]
  · have h2 : dc ≠ 0x00 ∧ dc ≠ 0xef := by tauto
    simp only [if_neg hdc, if_pos h2, List.map_cons, List.map_nil]
    by_cases hf : firstRuleDecision rules dc vid pid bcd da = 0
    · simp [firstNonzero, hf, checkIntfLoop_fst, Function.comp_def,
        check1_eq_firstRuleDecision]
    · simp [firstNonzero, hf, check1_eq_firstRuleDecision]

theorem check_true_eval (rules : List Rule) (dc : ℕ)
    (intfs : List (ℕ × ℕ × ℕ)) (vid pid bcd : ℕ) (da : Bool)
    (hv : usbredirfilter_verify rules = 0) :
    usbredirfilter_check true rules dc intfs vid pid bcd da =
      (if (if dc ≠ 0x00 ∧ dc ≠ 0xef then
             usbredirfilter_check1 rules dc vid pid bcd da else 0) ≠ 0 then
         (if dc ≠ 0x00 ∧ dc ≠ 0xef then
             usbredirfilter_check1 rules dc vid pid bcd da else 0)
       else (checkIntfLoop rules vid pid bcd da true intfs.length intfs).1) := by
  have hvf : ¬(usbredirfilter_verify rules ≠ 0) := by simp [hv]
  rw [usbredirfilter_check]
  rw [if_neg hvf]
  simp only []
  by_cases hdev : (if dc ≠ 0x00 ∧ dc ≠ 0xef then
      usbredirfilter_check1 rules dc vid pid bcd da else 0) ≠ 0
  · rw [if_pos hdev, if_pos hdev]
  · rw [if_neg hdev, if_neg hdev]
    have hsnd := checkIntfLoop_true_snd rules vid pid bcd da intfs.length intfs
    by_cases hl : (checkIntfLoop rules vid pid bcd da true intfs.length intfs).1 ≠ 0
    · rw [if_pos hl]
    · rw [if_neg hl, dif_neg (by rw [hsnd]; omega)]
      exact (not_ne_iff.mp hl).symm

/-- Claim C7: for every verified rule list, `usbredirfilter_check`
computes exactly the row-based first-match semantics of the spec: the
device row is evaluated unless the device class is 0x00 or 0xEF, an
interface row is skipped exactly when the dont_skip flag is clear,
interface_count > 1 and the row is class 3 / subclass 0 / protocol 0,
each considered row is decided by the first matching rule in list order
(allow → 0, deny → -EPERM, no rule → 0 under default_allow, -ENOENT
otherwise), and when interface rows exist and all were skipped the check
is redone once with the dont_skip flag forced on. -/
theorem C7_check_matches_spec (ds : Bool) (rules : List Rule) (dc : ℕ)
    (intfs : List (ℕ × ℕ × ℕ)) (vid pid bcd : ℕ) (da : Bool)
    (hv : usbredirfilter_verify rules = 0) :
    usbredirfilter_check ds rules dc intfs vid pid bcd da =
      usbredirfilter_checkSpec ds rules dc intfs vid pid bcd da := by
  have hvf : ¬(usbredirfilter_verify rules ≠ 0) := by simp [hv]
  rw [usbredirfilter_check, usbredirfilter_checkSpec]
  rw [if_neg hvf, if_neg hvf]
  simp only [pass_decomp]
  by_cases hdev : (if dc ≠ 0x00 ∧ dc ≠ 0xef then
      usbredirfilter_check1 rules dc vid pid bcd da else 0) ≠ 0
  · simp only [if_pos hdev]
  · simp only [if_neg hdev]
    by_cases hloop : (checkIntfLoop rules vid pid bcd da ds intfs.length intfs).1 ≠ 0
    · simp only [if_pos hloop]
    · simp only [if_neg hloop]
      have hloop0 : (checkIntfLoop rules vid pid bcd da ds intfs.length intfs).1 = 0 :=
        not_ne_iff.mp hloop
      have hcnt := checkIntfLoop_snd rules vid pid bcd da ds intfs.length intfs hloop0
      have hguard : ((checkIntfLoop rules vid pid bcd da ds intfs.length intfs).2 =
          intfs.length ↔ intfs.all (rowSkipped ds intfs.length) = true) := by
        rw [hcnt, List.all_eq_true, ← List.countP_eq_length]
      by_cases hg : 0 < intfs.length ∧
          (checkIntfLoop rules vid pid bcd da ds intfs.length intfs).2 = intfs.length
      · rw [dif_pos hg]
        have hg2 : (0 < intfs.length ∧ intfs.all (rowSkipped ds intfs.length) = true) :=
          ⟨hg.1, hguard.mp hg.2⟩
        rw [if_pos hg2, check_true_eval rules dc intfs vid pid bcd da hv]
        try simp only [if_neg hdev]
      · rw [dif_neg hg]
        have hg2 : ¬(0 < intfs.length ∧ intfs.all (rowSkipped ds intfs.length) = true) := by
          intro hc
          exact hg ⟨hc.1, hguard.mpr hc.2⟩
        rw [if_neg hg2]

/-- Witness for C7 at a concrete device: one non-boot-HID interface among
two, a deny rule for HID, default allow. -/
theorem C7_witness :
    usbredirfilter_verify [⟨3, -1, -1, -1, 0⟩] = 0 ∧
    usbredirfilter_check false [⟨3, -1, -1, -1, 0⟩] 0
        [(3, 0, 0), (3, 1, 1)] 0x1234 0x5678 0x100 true =
      usbredirfilter_checkSpec false [⟨3, -1, -1, -1, 0⟩] 0
        [(3, 0, 0), (3, 1, 1)] 0x1234 0x5678 0x100 true :=
  ⟨by decide,
   C7_check_matches_spec false [⟨3, -1, -1, -1, 0⟩] 0
     [(3, 0, 0), (3, 1, 1)] 0x1234 0x5678 0x100 true (by decide)⟩

/-- Claim C10: with device class 0x00 or 0xEF and no interfaces, the
check succeeds with 0 for every verified rule list (even an
all-denying one) and either default policy: no row is evaluated. -/
theorem C10_class0_ef_no_intf (ds da : Bool) (rules : List Rule)
    (dc vid pid bcd : ℕ) (hv : usbredirfilter_verify rules = 0)
    (hdc : dc = 0x00 ∨ dc = 0xef) :
    usbredirfilter_check ds rules dc [] vid pid bcd da = 0 := by
  rw [usbredirfilter_check]
  have : ¬(dc ≠ 0x00 ∧ dc ≠ 0xef) := by tauto
  simp [hv, this, checkIntfLoop]

/-- Witness for C10: a deny-everything rule list, class 0xEF device,
default deny. -/
theorem C10_witness :
    usbredirfilter_verify [⟨-1, -1, -1, -1, 0⟩] = 0 ∧
    usbredirfilter_check false [⟨-1, -1, -1, -1, 0⟩] 0xef []
        0x1234 0x5678 0x100 false = 0 :=
  ⟨by decide,
   C10_class0_ef_no_intf false false [⟨-1, -1, -1, -1, 0⟩] 0xef
     0x1234 0x5678 0x100 (by decide) (Or.inr rfl)⟩

/-! ### Host engine: iso backpressure (claim C4) -/

/-- Counterexample to claim C4 as stated: with 801 write buffers queued,
an iso input packet is dropped by `usbredirhost_send_stream_data` even
though dropping mode is off (buffered size 0 is far below both
thresholds), refuting "an iso input packet is sent if and only if
dropping mode is off". -/
theorem C4_counterexample :
    (usbredirhost_send_stream_data_iso 801 0 ⟨49152, 8192, false⟩ 5 0x81 0 [7]).1 = none ∧
    (usbredirhost_send_stream_data_iso 801 0 ⟨49152, 8192, false⟩ 5 0x81 0 [7]).2.dropping = false := by
  constructor <;> rfl

/-- Claim C4 as amended: on stream allocation the host sets
`higher = 3·(pkts_per_transfer·transfer_count·max_packetsize)` and
`lower = (pkts_per_transfer·transfer_count·max_packetsize)/2`; an iso
input packet is then sent if and only if at most 800 write buffers are
queued and dropping mode (after the threshold update) is off, where
dropping turns on when the buffered output size is ≥ higher, turns off
when it is < lower, and is unchanged in between; for
pkts_per_transfer = 8, transfer_count = 4, max_packetsize = 512 this
gives higher = 49152 and lower = 8192. -/
theorem C4_iso_thresholds (p c m : ℕ) (t0 t : IsoThreshold)
    (wbc size pid ep st : ℕ) (data : List ℕ)
    (hp : 1 ≤ p ∧ p ≤ MAX_PACKETS_PER_TRANSFER)
    (hc : 1 ≤ c ∧ c ≤ MAX_TRANSFER_COUNT) (hm : m ≤ 65535)
    (hwbc : wbc ≤ 800) :
    (usbredirhost_set_iso_threshold p c m t0).higher = 3 * (p * c * m) ∧
    (usbredirhost_set_iso_threshold p c m t0).lower = p * c * m / 2 ∧
    (usbredirhost_set_iso_threshold p c m t0).dropping = t0.dropping ∧
    ((usbredirhost_send_stream_data_iso wbc size t pid ep st data).1.isSome ↔
      (usbredirhost_can_write_iso_package size t).2.dropping = false) ∧
    (usbredirhost_send_stream_data_iso wbc size t pid ep st data).2 =
      (usbredirhost_can_write_iso_package size t).2 ∧
    (usbredirhost_can_write_iso_package size t).2.dropping =
      (if t.higher ≤ size then true
       else if size < t.lower then false else t.dropping) ∧
    usbredirhost_set_iso_threshold 8 4 512 t0 =
      ⟨49152, 8192, t0.dropping⟩ := by
  refine ⟨by simp [usbredirhost_set_iso_threshold]; ring, rfl, rfl, ?_, ?_, ?_, rfl⟩
  · rw [usbredirhost_send_stream_data_iso, if_neg (by omega)]
    rcases h : usbredirhost_can_write_iso_package size t with ⟨ok, t'⟩
    have hok : ok = !t'.dropping := by
      rw [usbredirhost_can_write_iso_package] at h
      cases h
      rfl
    subst hok
    cases t'.dropping <;> simp
  · rw [usbredirhost_send_stream_data_iso, if_neg (by omega)]
    rcases h : usbredirhost_can_write_iso_package size t with ⟨ok, t'⟩
    have hok : ok = !t'.dropping := by
      rw [usbredirhost_can_write_iso_package] at h
      cases h
      rfl
    subst hok
    cases t'.dropping <;> simp
  · rw [usbredirhost_can_write_iso_package]
    split_ifs <;> simp_all <;> omega

/-- Witness for C4 at the spec's concrete scenario: thresholds from
(8, 4, 512), a full queue of 60000 bytes and a drained queue of 7000
bytes. -/
theorem C4_witness :
    (1 ≤ 8 ∧ 8 ≤ MAX_PACKETS_PER_TRANSFER) ∧ (1 ≤ 4 ∧ 4 ≤ MAX_TRANSFER_COUNT) ∧
    (512 ≤ 65535) ∧ (2 ≤ 800) ∧
    ((usbredirhost_set_iso_threshold 8 4 512 ⟨0, 0, false⟩).higher = 3 * (8 * 4 * 512) ∧
     (usbredirhost_set_iso_threshold 8 4 512 ⟨0, 0, false⟩).lower = 8 * 4 * 512 / 2 ∧
     (usbredirhost_set_iso_threshold 8 4 512 ⟨0, 0, false⟩).dropping = false ∧
     ((usbredirhost_send_stream_data_iso 2 60000 ⟨49152, 8192, false⟩ 5 0x81 0 [7]).1.isSome ↔
       (usbredirhost_can_write_iso_package 60000 ⟨49152, 8192, false⟩).2.dropping = false) ∧
     (usbredirhost_send_stream_data_iso 2 60000 ⟨49152, 8192, false⟩ 5 0x81 0 [7]).2 =
       (usbredirhost_can_write_iso_package 60000 ⟨49152, 8192, false⟩).2 ∧
     (usbredirhost_can_write_iso_package 60000 ⟨49152, 8192, false⟩).2.dropping =
       (if (49152 : ℕ) ≤ 60000 then true
        else if 60000 < (8192 : ℕ) then false else false) ∧
     usbredirhost_set_iso_threshold 8 4 512 ⟨0, 0, false⟩ = ⟨49152, 8192, false⟩) :=
  ⟨by decide, by decide, by decide, by decide,
   C4_iso_thresholds 8 4 512 ⟨0, 0, false⟩ ⟨49152, 8192, false⟩ 2 60000 5 0x81 0 [7]
     (by decide) (by decide) (by decide) (by decide)⟩

/-! ### Host engine: stream allocation statuses (claim C5) -/

/-- Counterexample to claim C5 as stated: a parameter-validation failure
(pkts_per_transfer = 0 on a matching iso endpoint) is answered with a
stream status of STALL, not INVAL. -/
theorem C5_counterexample :
    usbredirhost_alloc_stream_unlocked false ⟨usb_redir_type_iso, 512, 0⟩
        usb_redir_type_iso 0 512 4 (fun _ => true) true =
      (some usb_redir_stall, []) ∧
    usb_redir_stall ≠ usb_redir_inval := by
  constructor
  · rfl
  · decide

/-- Claim C5 as amended: in `usbredirhost_alloc_stream_unlocked` on a
connected host with matching endpoint type, a parameter-validation
failure (pkts_per_transfer outside 1..32, transfer_count outside 1..16,
zero max_packetsize, or pkt_size not a multiple of max_packetsize) is
answered with stream status STALL; INVAL is sent only when a stream is
already allocated on the endpoint; an allocation failure frees the
partially allocated transfer records (leaving the ring empty) and also
replies STALL; a disconnected host takes the same error path and
likewise replies STALL. -/
theorem C5_alloc_stream_statuses (ep : EpAlloc) (etype p ps c : ℕ)
    (allocOk : ℕ → Bool) (ss : Bool) (hmatch : ep.etype = etype) :
    (p < 1 ∨ p > MAX_PACKETS_PER_TRANSFER ∨ c < 1 ∨ c > MAX_TRANSFER_COUNT ∨
       ep.maxPacketsize = 0 ∨ ps % ep.maxPacketsize ≠ 0 →
      usbredirhost_alloc_stream_unlocked false ep etype p ps c allocOk ss =
        (some usb_redir_stall, [])) ∧
    (¬(p < 1 ∨ p > MAX_PACKETS_PER_TRANSFER ∨ c < 1 ∨ c > MAX_TRANSFER_COUNT ∨
         ep.maxPacketsize = 0 ∨ ps % ep.maxPacketsize ≠ 0) →
      ep.transferCount ≠ 0 →
      usbredirhost_alloc_stream_unlocked false ep etype p ps c allocOk ss =
        (some usb_redir_inval, [])) ∧
    (¬(p < 1 ∨ p > MAX_PACKETS_PER_TRANSFER ∨ c < 1 ∨ c > MAX_TRANSFER_COUNT ∨
         ep.maxPacketsize = 0 ∨ ps % ep.maxPacketsize ≠ 0) →
      ep.transferCount = 0 → ¬(List.range c).all allocOk →
      usbredirhost_alloc_stream_unlocked false ep etype p ps c allocOk ss =
        (some usb_redir_stall, [])) ∧
    (usbredirhost_alloc_stream_unlocked true ep etype p ps c allocOk ss =
      (some usb_redir_stall, [])) := by
  refine ⟨?_, ?_, ?_, ?_⟩
  · intro hbad
    rw [usbredirhost_alloc_stream_unlocked, if_neg (by simp),
      if_neg (by simp [hmatch]), if_pos hbad]
  · intro hok htc
    rw [usbredirhost_alloc_stream_unlocked, if_neg (by simp),
      if_neg (by simp [hmatch]), if_neg hok, if_pos htc]
  · intro hok htc hall
    rw [usbredirhost_alloc_stream_unlocked, if_neg (by simp),
      if_neg (by simp [hmatch]), if_neg hok, if_neg (by simp [htc]),
      if_neg hall]
  · rw [usbredirhost_alloc_stream_unlocked, if_pos (by simp)]

/-- Witness for C5: pkts_per_transfer zero on a matching iso endpoint
(invalid-parameter arm), and the same endpoint on a disconnected host,
both at concrete inputs. -/
theorem C5_witness :
    ((0 : ℕ) < 1 ∨ (0 : ℕ) > MAX_PACKETS_PER_TRANSFER ∨ (4 : ℕ) < 1 ∨
       (4 : ℕ) > MAX_TRANSFER_COUNT ∨ (512 : ℕ) = 0 ∨ (512 : ℕ) % 512 ≠ 0) ∧
    usbredirhost_alloc_stream_unlocked false ⟨usb_redir_type_iso, 512, 0⟩
        usb_redir_type_iso 0 512 4 (fun _ => true) true =
      (some usb_redir_stall, []) ∧
    usbredirhost_alloc_stream_unlocked true ⟨usb_redir_type_iso, 512, 0⟩
        usb_redir_type_iso 0 512 4 (fun _ => true) true =
      (some usb_redir_stall, []) :=
  ⟨Or.inl (by decide),
   (C5_alloc_stream_statuses ⟨usb_redir_type_iso, 512, 0⟩ usb_redir_type_iso
      0 512 4 (fun _ => true) true rfl).1 (Or.inl (by decide)),
   (C5_alloc_stream_statuses ⟨usb_redir_type_iso, 512, 0⟩ usb_redir_type_iso
      0 512 4 (fun _ => true) true rfl).2.2.2⟩

/-! ### Host engine: per-packet cancellation (claim C6) -/

theorem cancel_fst_eq_markFirstMatch (ts : List HTransfer) (tid : ℕ) :
    (usbredirhost_cancel_data_packet ts tid).1 = markFirstMatch tid ts := by
  induction ts with
  | nil => rfl
  | cons t rest ih =>
    by_cases hm : (!t.cancelled && t.id == tid) = true
    · simp [usbredirhost_cancel_data_packet, markFirstMatch, hm]
    · simp [usbredirhost_cancel_data_packet, markFirstMatch, hm, ih]

theorem cancel_replies_found (ts : List HTransfer) (tid : ℕ) (t : HTransfer)
    (hf : ts.find? (fun u => !u.cancelled && u.id == tid) = some t) :
    (usbredirhost_cancel_data_packet ts tid).2 = [syntheticCancelReply t] := by
  induction ts with
  | nil => simp [List.find?] at hf
  | cons u rest ih =>
    by_cases hm : (!u.cancelled && u.id == tid) = true
    · simp only [List.find?_cons, hm] at hf
      cases hf
      simp [usbredirhost_cancel_data_packet, hm]
    · have hm2 : (!u.cancelled && u.id == tid) = false := by simpa using hm
      simp only [List.find?_cons, hm2] at hf
      simp [usbredirhost_cancel_data_packet, hm, ih hf]

theorem cancel_replies_none (ts : List HTransfer) (tid : ℕ)
    (hf : ts.find? (fun u => !u.cancelled && u.id == tid) = none) :
    usbredirhost_cancel_data_packet ts tid = (ts, []) := by
  induction ts with
  | nil => rfl
  | cons u rest ih =>
    by_cases hm : (!u.cancelled && u.id == tid) = true
    · simp only [List.find?_cons, hm] at hf
      cases hf
    · have hm2 : (!u.cancelled && u.id == tid) = false := by simpa using hm
      simp only [List.find?_cons, hm2] at hf
      simp [usbredirhost_cancel_data_packet, hm, ih hf]

/-- Claim C6: a `cancel_data_packet` for an id carried by some
not-yet-cancelled transfer on the non-stream list flags the first such
transfer cancelled and sends exactly one synthetic reply for that id —
the transfer's stored packet-type header with status = cancelled and
length = 0 (length_high = 0 for bulk) and no payload; the flagged
transfer's later completion callback sends no reply; and a cancel whose
id matches no live transfer changes nothing and sends nothing (it is not
an error). -/
theorem C6_cancel_data_packet (ts : List HTransfer) (tid : ℕ) :
    ((usbredirhost_cancel_data_packet ts tid).1 = markFirstMatch tid ts) ∧
    (∀ t, ts.find? (fun u => !u.cancelled && u.id == tid) = some t →
      (usbredirhost_cancel_data_packet ts tid).2 = [syntheticCancelReply t] ∧
      (syntheticCancelReply t).id = t.id ∧
      hdrStatus (syntheticCancelReply t).hdr = usb_redir_cancelled ∧
      hdrLength (syntheticCancelReply t).hdr = 0 ∧
      scrubHdr (syntheticCancelReply t).hdr = scrubHdr t.hdr ∧
      (syntheticCancelReply t).data = []) ∧
    (ts.find? (fun u => !u.cancelled && u.id == tid) = none →
      usbredirhost_cancel_data_packet ts tid = (ts, [])) ∧
    (∀ (t : HTransfer) (ws al : ℕ) (d : List ℕ), t.cancelled = true →
      usbredirhost_control_packet_complete t ws al d = []) := by
  refine ⟨cancel_fst_eq_markFirstMatch ts tid, ?_, cancel_replies_none ts tid, ?_⟩
  · intro t hf
    refine ⟨cancel_replies_found ts tid t hf, ?_, ?_, ?_, ?_, ?_⟩ <;>
      cases h : t.hdr <;> simp [syntheticCancelReply, hdrStatus, hdrLength, scrubHdr, h]
  · intro t ws al d hc
    cases h : t.hdr <;> simp [usbredirhost_control_packet_complete, h, hc]

/-- Witness for C6: a list with one live bulk transfer of id 42 and one
already-cancelled transfer; the cancel finds the live one. -/
theorem C6_witness :
    ([⟨42, false, .bulk ⟨2, 0, 100, 0, 0⟩⟩] :
        List HTransfer).find? (fun u => !u.cancelled && u.id == 42) =
      some ⟨42, false, .bulk ⟨2, 0, 100, 0, 0⟩⟩ ∧
    (usbredirhost_cancel_data_packet [⟨42, false, .bulk ⟨2, 0, 100, 0, 0⟩⟩] 42).1 =
      markFirstMatch 42 [⟨42, false, .bulk ⟨2, 0, 100, 0, 0⟩⟩] ∧
    (usbredirhost_cancel_data_packet [⟨42, false, .bulk ⟨2, 0, 100, 0, 0⟩⟩] 42).2 =
      [syntheticCancelReply ⟨42, false, .bulk ⟨2, 0, 100, 0, 0⟩⟩] ∧
    usbredirhost_control_packet_complete ⟨42, true, .bulk ⟨2, 0, 100, 0, 0⟩⟩ 0 0 [] = [] :=
  ⟨by decide,
   (C6_cancel_data_packet [⟨42, false, .bulk ⟨2, 0, 100, 0, 0⟩⟩] 42).1,
   ((C6_cancel_data_packet [⟨42, false, .bulk ⟨2, 0, 100, 0, 0⟩⟩] 42).2.1
      ⟨42, false, .bulk ⟨2, 0, 100, 0, 0⟩⟩ (by decide)).1,
   (C6_cancel_data_packet [⟨42, false, .bulk ⟨2, 0, 100, 0, 0⟩⟩] 42).2.2.2
     ⟨42, true, .bulk ⟨2, 0, 100, 0, 0⟩⟩ 0 0 [] rfl⟩

/-! ### Codec: id width negotiation (claim C3) -/

theorem using32_eq (s : PState) :
    usbredirparser_using_32bits_ids s =
      !(usbredirparser_have_cap s usb_redir_cap_64bits_ids &&
        usbredirparser_peer_has_cap s usb_redir_cap_64bits_ids) := by
  rw [usbredirparser_using_32bits_ids, using32Caps]
  cases h1 : capsGetCap s.ourCaps usb_redir_cap_64bits_ids <;>
    cases h2 : capsGetCap s.peerCaps usb_redir_cap_64bits_ids <;>
      simp [usbredirparser_have_cap, usbredirparser_peer_has_cap, h1, h2]

/-- Claim C3: the parser reads and writes the 64-bit id header form
exactly when both our_caps and peer_caps contain
usb_redir_cap_64bits_ids — the inbound header length is 16 (with the id
decoded as a u64 at offset 8) iff both sides have the capability, and a
queued packet's header uses the 64-bit id encoding iff both sides have
it — and before a hello has been received (peer caps still zero) both
inbound parsing and outbound queuing use the 32-bit form. -/
theorem C3_id_width (s : PState) (typ pid : ℕ) (thIn data : List ℕ)
    (hthl : 0 ≤ usbredirparser_get_type_header_len s.flUsbHost s.ourCaps s.peerCaps typ true)
    (hver : (usbredirparser_verify_type_header s.flUsbHost s.ourCaps s.peerCaps typ
               thIn data true).1 = true) :
    (usbredirparser_get_header_len s = 16 ↔
      (usbredirparser_have_cap s usb_redir_cap_64bits_ids = true ∧
       usbredirparser_peer_has_cap s usb_redir_cap_64bits_ids = true)) ∧
    (usbredirparser_get_header_len s = 16 ∨ usbredirparser_get_header_len s = 12) ∧
    (decodePacketId s =
      if usbredirparser_have_cap s usb_redir_cap_64bits_ids &&
         usbredirparser_peer_has_cap s usb_redir_cap_64bits_ids then
        u64At s.headerBytes 8
      else u32At s.headerBytes 8) ∧
    ((usbredirparser_queue s typ pid thIn data).writeBuf = s.writeBuf ++
      [⟨le32 typ ++
          le32 ((usbredirparser_get_type_header_len s.flUsbHost s.ourCaps s.peerCaps
                   typ true).toNat + data.length) ++
          (if usbredirparser_have_cap s usb_redir_cap_64bits_ids &&
              usbredirparser_peer_has_cap s usb_redir_cap_64bits_ids then
             le64 pid
           else le32 pid) ++
          takePad (usbredirparser_get_type_header_len s.flUsbHost s.ourCaps s.peerCaps
                     typ true).toNat thIn ++ data, 0⟩]) ∧
    (s.havePeerCaps = false → s.peerCaps = 0 →
      usbredirparser_get_header_len s = 12 ∧
      usbredirparser_using_32bits_ids s = true) := by
  have h32 := using32_eq s
  refine ⟨?_, ?_, ?_, ?_, ?_⟩
  · rw [usbredirparser_get_header_len, headerLenCaps]
    rw [usbredirparser_using_32bits_ids] at h32
    rw [h32]
    cases hb : (usbredirparser_have_cap s usb_redir_cap_64bits_ids &&
        usbredirparser_peer_has_cap s usb_redir_cap_64bits_ids) <;>
      simp_all
  · rw [usbredirparser_get_header_len, headerLenCaps]
    split <;> simp
  · rw [decodePacketId, h32]
    cases hb : (usbredirparser_have_cap s usb_redir_cap_64bits_ids &&
        usbredirparser_peer_has_cap s usb_redir_cap_64bits_ids) <;> simp
  · rw [usbredirparser_queue, if_neg (by omega), if_neg (by simp [hver]), h32]
    cases hb : (usbredirparser_have_cap s usb_redir_cap_64bits_ids &&
        usbredirparser_peer_has_cap s usb_redir_cap_64bits_ids) <;> simp
  · intro hpc hzero
    rw [usbredirparser_get_header_len, headerLenCaps, usbredirparser_using_32bits_ids]
    have : using32Caps s.ourCaps s.peerCaps = true := by
      rw [using32Caps, hzero]
      simp [capsGetCap, USB_REDIR_CAPS_SIZE, usb_redir_cap_64bits_ids]
    simp [this]

/-- Witness for C3: a host parser before any hello (no peer caps),
queuing a device_disconnect packet. -/
theorem C3_witness :
    (0 ≤ usbredirparser_get_type_header_len true (2 ^ 4) 0 usb_redir_device_disconnect true) ∧
    ((usbredirparser_verify_type_header true (2 ^ 4) 0 usb_redir_device_disconnect
        [] [] true).1 = true) ∧
    (usbredirparser_get_header_len (pristineState true (2 ^ 4)) = 12 ∧
     usbredirparser_using_32bits_ids (pristineState true (2 ^ 4)) = true) :=
  ⟨by decide, by decide,
   (C3_id_width (pristineState true (2 ^ 4)) usb_redir_device_disconnect 9 [] []
      (by decide) (by decide)).2.2.2.2 rfl rfl⟩

/-! ### Filter parsing: error characterization (claim C9) -/

theorem verify_singleton (r : Rule) :
    usbredirfilter_verify [r] = 0 ↔ ruleOk r = true := by
  rw [usbredirfilter_verify, usbredirfilter_verify]
  cases h : ruleOk r <;> simp [EINVAL]

theorem verify_eq_zero_iff (rules : List Rule) :
    usbredirfilter_verify rules = 0 ↔ ∀ r ∈ rules, ruleOk r = true := by
  induction rules with
  | nil => simp [usbredirfilter_verify]
  | cons r rs ih =>
    rw [usbredirfilter_verify]
    cases h : ruleOk r <;> simp [h, ih, EINVAL]

theorem parseTokens_eq (n : ℕ) (toks : List (List Char)) :
    parseTokens n toks =
      if toks.length = n ∧ (∀ t ∈ toks, (strtol t).2.isEmpty = true) then
        some (toks.map (fun t => toCInt (strtol t).1))
      else none := by
  induction toks generalizing n with
  | nil =>
    cases n with
    | zero => simp [parseTokens]
    | succ m => simp [parseTokens]
  | cons t rest ih =>
    cases n with
    | zero => simp [parseTokens]
    | succ m =>
      rw [parseTokens, ih m]
      by_cases he : (strtol t).2.isEmpty = true
      · by_cases hc : rest.length = m ∧ (∀ u ∈ rest, (strtol u).2.isEmpty = true)
        · rw [if_pos he, if_pos hc, if_pos]
          · simp
          · simp only [List.length_cons, List.forall_mem_cons]
            exact ⟨by omega, he, hc.2⟩
        · rw [if_pos he, if_neg hc, if_neg]
          · simp
          · simp only [List.length_cons, List.forall_mem_cons]
            intro hh
            exact hc ⟨by omega, hh.2.2⟩
      · rw [if_neg he, if_neg]
        simp only [List.length_cons, List.forall_mem_cons]
        intro hh
        exact he hh.2.1

theorem parseRuleChunk_eq (tokenSep chunk : List Char) :
    parseRuleChunk tokenSep chunk =
      if chunkWellFormed tokenSep chunk = true then
        some (chunkRule tokenSep chunk)
      else none := by
  rw [parseRuleChunk, parseTokens_eq, chunkWellFormed, chunkRule]
  by_cases h1 : (tokenize tokenSep chunk).length = 5 ∧
      (∀ t ∈ tokenize tokenSep chunk, (strtol t).2.isEmpty = true)
  · rw [if_pos h1, Option.some_bind]
    by_cases h2 : ruleOk (mkRule ((tokenize tokenSep chunk).map
        (fun t => toCInt (strtol t).1))) = true
    · rw [if_pos ((verify_singleton _).mpr h2), if_pos]
      simp only [Bool.and_eq_true, beq_iff_eq, List.all_eq_true]
      exact ⟨⟨h1.1, h1.2⟩, h2⟩
    · rw [if_neg (fun hok => h2 ((verify_singleton _).mp hok)), if_neg]
      simp only [Bool.and_eq_true, beq_iff_eq, List.all_eq_true]
      intro hh
      exact h2 hh.2
  · rw [if_neg h1, Option.none_bind, if_neg]
    simp only [Bool.and_eq_true, beq_iff_eq, List.all_eq_true]
    intro hh
    exact h1 ⟨hh.1.1, hh.1.2⟩

theorem parseChunks_eq (tokenSep : List Char) (chunks : List (List Char)) :
    parseChunks tokenSep chunks =
      if (∀ ch ∈ chunks, chunkWellFormed tokenSep ch = true) then
        some (chunks.map (chunkRule tokenSep))
      else none := by
  induction chunks with
  | nil => simp [parseChunks]
  | cons ch rest ih =>
    rw [parseChunks, parseRuleChunk_eq, ih]
    by_cases h1 : chunkWellFormed tokenSep ch = true
    · by_cases h2 : ∀ u ∈ rest, chunkWellFormed tokenSep u = true
      · rw [if_pos h1, if_pos h2,
          if_pos (by simp only [List.forall_mem_cons]; exact ⟨h1, h2⟩)]
        simp
      · rw [if_pos h1, if_neg h2, if_neg]
        · simp
        · simp only [List.forall_mem_cons]
          intro hh
          exact h2 hh.2
    · rw [if_neg h1, Option.none_bind, if_neg]
      simp only [List.forall_mem_cons]
      intro hh
      exact h1 hh.1

/-- Claim C9: `usbredirfilter_string_to_rules` fails with -EINVAL when
either separator is empty; with nonempty separators it fails with
-EINVAL whenever some (nonempty) rule chunk is malformed — fewer or more
than five fields, a field with trailing non-numeric content, or a field
out of range — and succeeds on well-formed input, producing exactly the
rules of the nonempty chunks (empty rules produced by leading, trailing
or adjacent rule separators are skipped silently). -/
theorem C9_parse_errors (tokenSep ruleSep s : List Char) :
    ((tokenSep = [] ∨ ruleSep = []) →
      usbredirfilter_string_to_rules tokenSep ruleSep s = (-EINVAL, [])) ∧
    (tokenSep ≠ [] → ruleSep ≠ [] →
      ((∃ chunk ∈ tokenize ruleSep s, chunkWellFormed tokenSep chunk = false) →
        usbredirfilter_string_to_rules tokenSep ruleSep s = (-EINVAL, [])) ∧
      ((∀ chunk ∈ tokenize ruleSep s, chunkWellFormed tokenSep chunk = true) →
        usbredirfilter_string_to_rules tokenSep ruleSep s =
          (0, (tokenize ruleSep s).map (chunkRule tokenSep)))) := by
  refine ⟨?_, ?_⟩
  · intro h
    rw [usbredirfilter_string_to_rules, if_pos]
    rcases h with h | h <;> simp [h]
  · intro h1 h2
    rw [usbredirfilter_string_to_rules, if_neg (by simp [h1, h2])]
    rw [parseChunks_eq]
    constructor
    · intro ⟨chunk, hmem, hbad⟩
      rw [if_neg]
      intro hall
      rw [hall chunk hmem] at hbad
      cases hbad
    · intro hgood
      rw [if_pos hgood]

/-- Witness for C9: the empty-separator case and, with ",", "|", both a
malformed input (class 0x100 out of range) and a well-formed two-rule
input with stray separators. -/
theorem C9_witness :
    ((([] : List Char) = [] ∨ (['|'] : List Char) = []) ∧
      usbredirfilter_string_to_rules [] ['|'] (String.toList "0x03,-1,-1,-1,0") =
        (-EINVAL, [])) ∧
    (([','] : List Char) ≠ [] ∧ (['|'] : List Char) ≠ []) ∧
    ((∃ chunk ∈ tokenize ['|'] (String.toList "0x100,-1,-1,-1,0"),
        chunkWellFormed [','] chunk = false) ∧
      usbredirfilter_string_to_rules [','] ['|'] (String.toList "0x100,-1,-1,-1,0") =
        (-EINVAL, [])) ∧
    ((∀ chunk ∈ tokenize ['|'] (String.toList "|0x03,-1,-1,-1,0||-1,-1,-1,-1,1|"),
        chunkWellFormed [','] chunk = true) ∧
      usbredirfilter_string_to_rules [','] ['|']
          (String.toList "|0x03,-1,-1,-1,0||-1,-1,-1,-1,1|") =
        (0, (tokenize ['|'] (String.toList "|0x03,-1,-1,-1,0||-1,-1,-1,-1,1|")).map
              (chunkRule [',']))) :=
  ⟨⟨Or.inl rfl, (C9_parse_errors [] ['|'] (String.toList "0x03,-1,-1,-1,0")).1 (Or.inl rfl)⟩,
   ⟨by decide, by decide⟩,
   ⟨by decide,
    ((C9_parse_errors [','] ['|'] (String.toList "0x100,-1,-1,-1,0")).2
       (by decide) (by decide)).1 (by decide)⟩,
   ⟨by decide,
    ((C9_parse_errors [','] ['|'] (String.toList "|0x03,-1,-1,-1,0||-1,-1,-1,-1,1|")).2
       (by decide) (by decide)).2 (by decide)⟩⟩

/-! ### Filter serialization round trip (claim C1) -/

theorem hexDigitChar_digitVal (d : ℕ) (hd : d < 16) :
    digitVal 16 (hexDigitChar d) = some d := by
  interval_cases d <;> decide

theorem hexDigitChar_good (d : ℕ) (hd : d < 16) :
    hexDigitChar d ≠ ',' ∧ hexDigitChar d ≠ '|' := by
  interval_cases d <;> decide

theorem hexChars_mem (n : ℕ) (c : Char) (hc : c ∈ hexChars n) :
    ∃ d, d < 16 ∧ c = hexDigitChar d := by
  rw [hexChars, List.mem_reverse, List.mem_map] at hc
  obtain ⟨d, hd, hdc⟩ := hc
  exact ⟨d, Nat.digits_lt_base (by norm_num) hd, hdc.symm⟩

theorem foldl_hexDigits (ds : List ℕ) (hds : ∀ d ∈ ds, d < 16) (a : ℕ) :
    List.foldl (fun x c => x * 16 + (digitVal 16 c).getD 0) a
      ((ds.map hexDigitChar).reverse) = a * 16 ^ ds.length + Nat.ofDigits 16 ds := by
  induction ds generalizing a with
  | nil => simp [Nat.ofDigits]
  | cons d rest ih =>
    have hd : d < 16 := hds d (List.mem_cons_self _ _)
    have hrest : ∀ e ∈ rest, e < 16 := fun e he => hds e (List.mem_cons_of_mem _ he)
    simp only [List.map_cons, List.reverse_cons, List.foldl_append, List.foldl_cons,
      List.foldl_nil, ih hrest, hexDigitChar_digitVal d hd, Option.getD_some,
      Nat.ofDigits_cons, List.length_cons]
    ring

theorem foldl_hexPad (w n : ℕ) :
    List.foldl (fun x c => x * 16 + (digitVal 16 c).getD 0) 0 (hexPad w n) = n := by
  rw [hexPad, List.foldl_append]
  have h0 : (digitVal 16 '0').getD 0 = 0 := by decide
  have hrep : List.foldl (fun x c => x * 16 + (digitVal 16 c).getD 0) 0
      (List.replicate (w - (hexChars n).length) '0') = 0 := by
    generalize (w - (hexChars n).length) = k
    induction k with
    | zero => rfl
    | succ m ih =>
      rw [List.replicate_succ, List.foldl_cons, h0]
      simpa using ih
  rw [hrep, hexChars,
    foldl_hexDigits _ (fun d hd => Nat.digits_lt_base (by norm_num) hd) 0]
  simp [Nat.ofDigits_digits]

theorem digitsRun_all_digits (base : ℕ) (ds : List Char) :
    ∀ a, (∀ c ∈ ds, (digitVal base c).isSome = true) →
      digitsRun base ds a =
        (List.foldl (fun x c => x * base + (digitVal base c).getD 0) a ds, []) := by
  induction ds with
  | nil => intro a _; rfl
  | cons c cs ih =>
    intro a h
    obtain ⟨v, hv⟩ := Option.isSome_iff_exists.mp (h c (List.mem_cons_self _ _))
    simp only [digitsRun, hv, List.foldl_cons, Option.getD_some]
    exact ih _ (fun e he => h e (List.mem_cons_of_mem _ he))

theorem hexPad_digit (w n : ℕ) (c : Char) (hc : c ∈ hexPad w n) :
    (digitVal 16 c).isSome = true := by
  rw [hexPad, List.mem_append] at hc
  rcases hc with hc | hc
  · rw [List.eq_of_mem_replicate hc]; decide
  · obtain ⟨d, hd, rfl⟩ := hexChars_mem n c hc
    rw [hexDigitChar_digitVal d hd]; rfl

theorem strtol_hexPad (w n : ℕ) (hw : 1 ≤ w) (hn63 : n < 2 ^ 63) :
    strtol ('0' :: 'x' :: hexPad w n) = ((n : Int), []) := by
  have hrun : digitsRun 16 (hexPad w n) 0 = (n, []) := by
    rw [digitsRun_all_digits 16 (hexPad w n) 0 (hexPad_digit w n), foldl_hexPad]
  have hlen : 0 < (hexPad w n).length := by
    rw [hexPad, List.length_append, List.length_replicate]; omega
  obtain ⟨c, cs, hcons⟩ := List.exists_cons_of_ne_nil (List.length_pos.mp hlen)
  rw [hcons] at hrun
  have hdc : (digitVal 16 c).isSome = true := by
    apply hexPad_digit w n; rw [hcons]; exact List.mem_cons_self _ _
  have hclamp : longClamp false n = n := by
    rw [longClamp]; simp; omega
  have hred : strtol ('0' :: 'x' :: c :: cs) =
      (match (if (digitVal 16 c).isSome then some (digitsRun 16 (c :: cs) 0)
              else some ((0 : ℕ), 'x' :: c :: cs)) with
       | none => ((0 : Int), '0' :: 'x' :: c :: cs)
       | some (v, rest) => (((longClamp false v : ℕ) : Int), rest)) := rfl
  rw [hcons, hred, if_pos hdc, hrun]
  show (((longClamp false n : ℕ) : Int), ([] : List Char)) = ((n : Int), [])
  rw [hclamp]

theorem strtol_fieldStr (w : ℕ) (v : Int) (hw : 1 ≤ w) (hwb : w ≤ 4)
    (hv : -1 ≤ v) (hb : v < 16 ^ w) :
    strtol (fieldStr w v) = (v, []) := by
  rw [fieldStr]
  by_cases h1 : v = -1
  · rw [if_pos h1, h1]; decide
  · rw [if_neg h1]
    have hv0 : 0 ≤ v := by omega
    have h16 : (16 : Int) ^ w ≤ 16 ^ 4 := by
      apply pow_le_pow_right (by norm_num) hwb
    have h63 : v.toNat < 2 ^ 63 := by
      norm_num at h16
      omega
    rw [strtol_hexPad w v.toNat hw h63, Int.toNat_of_nonneg hv0]

theorem strtol_allowStr (v : Int) :
    strtol (allowStr v) = (if v ≠ 0 then 1 else 0, []) := by
  rw [allowStr]
  by_cases h : v ≠ 0
  · rw [if_pos h, if_pos h]; decide
  · rw [if_neg h, if_neg h]; decide

theorem fieldStr_chars (w : ℕ) (v : Int) (c : Char) (hc : c ∈ fieldStr w v) :
    c ≠ ',' ∧ c ≠ '|' := by
  rw [fieldStr] at hc
  by_cases h1 : v = -1
  · rw [if_pos h1] at hc
    simp only [List.mem_cons, List.not_mem_nil, or_false] at hc
    rcases hc with rfl | rfl <;> decide
  · rw [if_neg h1] at hc
    simp only [List.mem_cons] at hc
    rcases hc with rfl | rfl | hc
    · decide
    · decide
    · rw [hexPad, List.mem_append] at hc
      rcases hc with hc | hc
      · rw [List.eq_of_mem_replicate hc]; decide
      · obtain ⟨d, hd, rfl⟩ := hexChars_mem _ _ hc
        exact hexDigitChar_good d hd

theorem allowStr_chars (v : Int) (c : Char) (hc : c ∈ allowStr v) :
    c ≠ ',' ∧ c ≠ '|' := by
  rw [allowStr] at hc
  split at hc <;>
    simp only [List.mem_cons, List.not_mem_nil, or_false] at hc <;>
    subst hc <;> decide

theorem fieldStr_ne_nil (w : ℕ) (v : Int) : fieldStr w v ≠ [] := by
  rw [fieldStr]; split <;> simp

theorem allowStr_ne_nil (v : Int) : allowStr v ≠ [] := by
  rw [allowStr]; split <;> simp

theorem contains_single_false (a c : Char) (h : c ≠ a) :
    [a].contains c = false := by
  simp [h]

theorem splitKeep_ne_nil (sep s : List Char) : splitKeep sep s ≠ [] := by
  cases s with
  | nil => simp [splitKeep]
  | cons c cs =>
    rw [splitKeep]
    cases h : splitKeep sep cs with
    | nil => simp
    | cons t ts =>
      show (if sep.contains c then [] :: t :: ts else (c :: t) :: ts) ≠ []
      split <;> simp

theorem splitKeep_no_sep (sep x : List Char)
    (hx : ∀ c ∈ x, sep.contains c = false) :
    splitKeep sep x = [x] := by
  induction x with
  | nil => rfl
  | cons c cs ih =>
    have hc : sep.contains c = false := hx c (List.mem_cons_self _ _)
    simp only [splitKeep, ih (fun e he => hx e (List.mem_cons_of_mem _ he)), hc,
      Bool.false_eq_true, if_false]

theorem splitKeep_sep_cons (sep : List Char) (c0 : Char)
    (hc0 : sep.contains c0 = true) (x rest : List Char)
    (hx : ∀ c ∈ x, sep.contains c = false) :
    splitKeep sep (x ++ c0 :: rest) = x :: splitKeep sep rest := by
  induction x with
  | nil =>
    obtain ⟨t, ts, hts⟩ := List.exists_cons_of_ne_nil (splitKeep_ne_nil sep rest)
    rw [List.nil_append]
    simp only [splitKeep, hts, hc0, if_true]
  | cons a as ih =>
    have ha : sep.contains a = false := hx a (List.mem_cons_self _ _)
    have ih2 := ih (fun e he => hx e (List.mem_cons_of_mem _ he))
    simp only [List.cons_append, splitKeep, List.append_eq, ih2, ha,
      Bool.false_eq_true, if_false]

theorem tokenize_joinSep (sep : List Char) (c0 : Char)
    (hc0 : sep.contains c0 = true) (chunks : List (List Char)) :
    (∀ ch ∈ chunks, ch ≠ []) →
    (∀ ch ∈ chunks, ∀ c ∈ ch, sep.contains c = false) →
    tokenize sep (joinSep c0 chunks) = chunks := by
  induction chunks with
  | nil => intro _ _; rfl
  | cons x xs ih =>
    intro hne hch
    have hx : x ≠ [] := hne x (List.mem_cons_self _ _)
    have hpx : (!x.isEmpty) = true := by simp [List.isEmpty_iff, hx]
    cases xs with
    | nil =>
      show tokenize sep (joinSep c0 [x]) = [x]
      rw [show joinSep c0 [x] = x from rfl, tokenize,
        splitKeep_no_sep sep x (hch x (List.mem_cons_self _ _)), List.filter_cons,
        if_pos hpx]
      rfl
    | cons y ys =>
      rw [joinSep, tokenize,
        splitKeep_sep_cons sep c0 hc0 x _ (hch x (List.mem_cons_self _ _)),
        List.filter_cons, if_pos hpx]
      show x :: tokenize sep (joinSep c0 (y :: ys)) = x :: y :: ys
      rw [ih (fun e he => hne e (List.mem_cons_of_mem _ he))
        (fun e he => hch e (List.mem_cons_of_mem _ he))]

theorem joinSep_mem (c0 : Char) (chunks : List (List Char)) (c : Char) :
    c ∈ joinSep c0 chunks → c = c0 ∨ ∃ ch ∈ chunks, c ∈ ch := by
  induction chunks with
  | nil => intro hc; simp [joinSep] at hc
  | cons x xs ih =>
    intro hc
    cases xs with
    | nil => exact Or.inr ⟨x, List.mem_cons_self _ _, hc⟩
    | cons y ys =>
      rw [joinSep, List.mem_append] at hc
      rcases hc with hc | hc
      · exact Or.inr ⟨x, List.mem_cons_self _ _, hc⟩
      · rw [List.mem_cons] at hc
        rcases hc with rfl | hc
        · exact Or.inl rfl
        · rcases ih hc with h | ⟨ch, hchm, hcc⟩
          · exact Or.inl h
          · exact Or.inr ⟨ch, List.mem_cons_of_mem _ hchm, hcc⟩

theorem joinSep_ne_nil (c0 : Char) (x : List Char) (xs : List (List Char))
    (hx : x ≠ []) : joinSep c0 (x :: xs) ≠ [] := by
  cases xs with
  | nil => exact hx
  | cons y ys =>
    rw [joinSep]
    simp [hx]

theorem toCInt_small (v : Int) (h1 : -2 ^ 31 ≤ v) (h2 : v < 2 ^ 31) :
    toCInt v = v := by
  rw [toCInt]; omega

theorem ruleChunkStr_tokenize (r : Rule) :
    tokenize [','] (ruleChunkStr ',' r) =
      [fieldStr 2 r.deviceClass, fieldStr 4 r.vendorId, fieldStr 4 r.productId,
       fieldStr 4 r.deviceVersionBcd, allowStr r.allow] := by
  rw [ruleChunkStr]
  apply tokenize_joinSep [','] ',' (by decide)
  · intro ch hch
    simp only [List.mem_cons, List.not_mem_nil, or_false] at hch
    rcases hch with rfl | rfl | rfl | rfl | rfl
    · exact fieldStr_ne_nil _ _
    · exact fieldStr_ne_nil _ _
    · exact fieldStr_ne_nil _ _
    · exact fieldStr_ne_nil _ _
    · exact allowStr_ne_nil _
  · intro ch hch c hc
    apply contains_single_false
    simp only [List.mem_cons, List.not_mem_nil, or_false] at hch
    rcases hch with rfl | rfl | rfl | rfl | rfl
    · exact (fieldStr_chars _ _ _ hc).1
    · exact (fieldStr_chars _ _ _ hc).1
    · exact (fieldStr_chars _ _ _ hc).1
    · exact (fieldStr_chars _ _ _ hc).1
    · exact (allowStr_chars _ _ hc).1

theorem ruleChunkStr_chunkRule (r : Rule) (hok : ruleOk r = true) :
    chunkRule [','] (ruleChunkStr ',' r) = normAllow r := by
  rw [ruleOk] at hok
  simp only [Bool.and_eq_true, decide_eq_true_eq] at hok
  obtain ⟨⟨⟨⟨h1, h2⟩, h3, h4⟩, h5, h6⟩, h7, h8⟩ := hok
  have s1 : strtol (fieldStr 2 r.deviceClass) = (r.deviceClass, []) :=
    strtol_fieldStr 2 _ (by norm_num) (by norm_num) h1 (by norm_num; omega)
  have s2 : strtol (fieldStr 4 r.vendorId) = (r.vendorId, []) :=
    strtol_fieldStr 4 _ (by norm_num) (by norm_num) h3 (by norm_num; omega)
  have s3 : strtol (fieldStr 4 r.productId) = (r.productId, []) :=
    strtol_fieldStr 4 _ (by norm_num) (by norm_num) h5 (by norm_num; omega)
  have s4 : strtol (fieldStr 4 r.deviceVersionBcd) = (r.deviceVersionBcd, []) :=
    strtol_fieldStr 4 _ (by norm_num) (by norm_num) h7 (by norm_num; omega)
  have s5 : strtol (allowStr r.allow) = (if r.allow ≠ 0 then 1 else 0, []) :=
    strtol_allowStr _
  rw [chunkRule, ruleChunkStr_tokenize, List.map_cons, List.map_cons, List.map_cons,
    List.map_cons, List.map_cons, List.map_nil, s1, s2, s3, s4, s5]
  have t1 : toCInt r.deviceClass = r.deviceClass := toCInt_small _ (by omega) (by omega)
  have t2 : toCInt r.vendorId = r.vendorId := toCInt_small _ (by omega) (by omega)
  have t3 : toCInt r.productId = r.productId := toCInt_small _ (by omega) (by omega)
  have t4 : toCInt r.deviceVersionBcd = r.deviceVersionBcd :=
    toCInt_small _ (by omega) (by omega)
  have t5 : toCInt (if r.allow ≠ 0 then 1 else 0) = (if r.allow ≠ 0 then 1 else 0) := by
    split <;> decide
  simp only [t1, t2, t3, t4, t5]
  rfl

theorem ruleChunkStr_wellFormed (r : Rule) (hok : ruleOk r = true) :
    chunkWellFormed [','] (ruleChunkStr ',' r) = true := by
  have hcr := ruleChunkStr_chunkRule r hok
  rw [chunkWellFormed, hcr, ruleChunkStr_tokenize]
  have hok2 : ruleOk (normAllow r) = true := by
    rw [show ruleOk (normAllow r) = ruleOk r from rfl]; exact hok
  rw [ruleOk] at hok
  simp only [Bool.and_eq_true, decide_eq_true_eq] at hok
  obtain ⟨⟨⟨⟨h1, h2⟩, h3, h4⟩, h5, h6⟩, h7, h8⟩ := hok
  have s1 : strtol (fieldStr 2 r.deviceClass) = (r.deviceClass, []) :=
    strtol_fieldStr 2 _ (by norm_num) (by norm_num) h1 (by norm_num; omega)
  have s2 : strtol (fieldStr 4 r.vendorId) = (r.vendorId, []) :=
    strtol_fieldStr 4 _ (by norm_num) (by norm_num) h3 (by norm_num; omega)
  have s3 : strtol (fieldStr 4 r.productId) = (r.productId, []) :=
    strtol_fieldStr 4 _ (by norm_num) (by norm_num) h5 (by norm_num; omega)
  have s4 : strtol (fieldStr 4 r.deviceVersionBcd) = (r.deviceVersionBcd, []) :=
    strtol_fieldStr 4 _ (by norm_num) (by norm_num) h7 (by norm_num; omega)
  have s5 : strtol (allowStr r.allow) = (if r.allow ≠ 0 then 1 else 0, []) :=
    strtol_allowStr _
  simp only [List.length_cons, List.length_nil, List.all_cons, List.all_nil,
    s1, s2, s3, s4, s5, hok2, List.isEmpty_nil, Bool.and_true, Bool.and_eq_true,
    beq_iff_eq]

/-- Claim C1 (corrected): for a rule list passing `usbredirfilter_verify`,
`usbredirfilter_rules_to_string` with token separator "," and rule
separator "|" succeeds, and `usbredirfilter_string_to_rules` on the
produced string returns 0 with exactly the original rules except that the
serializer normalizes each `allow` field to `allow ? 1 : 0`
(usbredirfilter.c line 151), so a rule with `allow` outside {0, 1} does
not round-trip identically. -/
theorem C1_roundtrip (rules : List Rule)
    (hv : usbredirfilter_verify rules = 0) :
    usbredirfilter_rules_to_string rules [','] ['|'] =
      some (serializedRules rules) ∧
    usbredirfilter_string_to_rules [','] ['|'] (serializedRules rules) =
      (0, rules.map normAllow) := by
  have hall : ∀ r ∈ rules, ruleOk r = true := (verify_eq_zero_iff rules).mp hv
  constructor
  · rw [usbredirfilter_rules_to_string, if_neg (fun h => h hv), if_neg (by decide)]
    rfl
  · have htok : tokenize ['|'] (serializedRules rules) =
        rules.map (ruleChunkStr ',') := by
      rw [serializedRules]
      apply tokenize_joinSep ['|'] '|' (by decide)
      · intro ch hch
        rw [List.mem_map] at hch
        obtain ⟨r, hr, rfl⟩ := hch
        rw [ruleChunkStr]
        exact joinSep_ne_nil _ _ _ (fieldStr_ne_nil _ _)
      · intro ch hch c hc
        rw [List.mem_map] at hch
        obtain ⟨r, hr, rfl⟩ := hch
        apply contains_single_false
        rcases joinSep_mem ',' _ c hc with rfl | ⟨t, ht, hct⟩
        · decide
        · simp only [List.mem_cons, List.not_mem_nil, or_false] at ht
          rcases ht with rfl | rfl | rfl | rfl | rfl
          · exact (fieldStr_chars _ _ _ hct).2
          · exact (fieldStr_chars _ _ _ hct).2
          · exact (fieldStr_chars _ _ _ hct).2
          · exact (fieldStr_chars _ _ _ hct).2
          · exact (allowStr_chars _ _ hct).2
    rw [usbredirfilter_string_to_rules, if_neg (by decide), htok, parseChunks_eq,
      if_pos ?hwf]
    case hwf =>
      intro ch hch
      rw [List.mem_map] at hch
      obtain ⟨r, hr, rfl⟩ := hch
      exact ruleChunkStr_wellFormed r (hall r hr)
    have hmap : List.map (chunkRule [','] ∘ ruleChunkStr ',') rules =
        List.map normAllow rules := by
      apply List.map_congr_left
      intro r hr
      exact ruleChunkStr_chunkRule r (hall r hr)
    rw [List.map_map, hmap]

/-- The C1 round trip is not the identity on the `allow` field: a verified
rule with `allow = 2` serializes to "-1,-1,-1,-1,1" and parses back with
`allow = 1`. -/
theorem C1_counterexample :
    usbredirfilter_verify [⟨-1, -1, -1, -1, 2⟩] = 0 ∧
    usbredirfilter_rules_to_string [⟨-1, -1, -1, -1, 2⟩] [','] ['|'] =
      some ['-', '1', ',', '-', '1', ',', '-', '1', ',', '-', '1', ',', '1'] ∧
    usbredirfilter_string_to_rules [','] ['|']
        ['-', '1', ',', '-', '1', ',', '-', '1', ',', '-', '1', ',', '1'] =
      (0, [⟨-1, -1, -1, -1, 1⟩]) ∧
    ([(⟨-1, -1, -1, -1, 1⟩ : Rule)] ≠ [(⟨-1, -1, -1, -1, 2⟩ : Rule)]) := by
  refine ⟨by decide, by decide, by decide, by decide⟩

theorem C1_witness :
    usbredirfilter_verify [(⟨3, -1, -1, 258, 1⟩ : Rule)] = 0 ∧
    (usbredirfilter_rules_to_string [(⟨3, -1, -1, 258, 1⟩ : Rule)] [','] ['|'] =
      some (serializedRules [⟨3, -1, -1, 258, 1⟩]) ∧
    usbredirfilter_string_to_rules [','] ['|']
        (serializedRules [⟨3, -1, -1, 258, 1⟩]) =
      (0, [(⟨3, -1, -1, 258, 1⟩ : Rule)].map normAllow)) :=
  ⟨by decide, C1_roundtrip [⟨3, -1, -1, 258, 1⟩] (by decide)⟩

/-! ### Parser skip-on-error and resume (claim C2) -/


theorem le32_length (n : ℕ) : (le32 n).length = 4 := rfl

theorem serData_length (b : List ℕ) : (serData b).length = 4 + b.length := by
  rw [serData, List.length_append, le32_length]

theorem parseU32_le32 (n : ℕ) (r : List ℕ) (hn : n < 2 ^ 32) :
    parseU32 (le32 n ++ r) = some (n, r) := by
  show some (n % 2 ^ 8 + 2 ^ 8 * (n / 2 ^ 8 % 2 ^ 8) + 2 ^ 16 * (n / 2 ^ 16 % 2 ^ 8) +
    2 ^ 24 * (n / 2 ^ 24 % 2 ^ 8), r) = some (n, r)
  exact congrArg (fun v => some (v, r)) (by omega)

theorem parseChunk_serData (cap : Option ℕ) (b r : List ℕ) (hb : b.length < 2 ^ 32)
    (hc : b.length ≤ cap.getD b.length) :
    parseChunk cap (serData b ++ r) = some (b, r) := by
  rw [serData, List.append_assoc]
  simp only [parseChunk, parseU32_le32 b.length (b ++ r) hb]
  rw [if_neg (by simp only [List.length_append]; omega)]
  rw [List.take_left, List.drop_left]

theorem parseChunk_le32_zero (cap : Option ℕ) (r : List ℕ) :
    parseChunk cap (le32 0 ++ r) = some ([], r) := by
  simp only [parseChunk, parseU32_le32 0 r (by norm_num)]
  rw [if_neg (by simp)]
  simp

theorem overlayWord_le32 (w v : ℕ) (hv : v < 2 ^ 32) :
    overlayWord w (le32 v) = v := by
  show v % 2 ^ 8 + 2 ^ 8 * (v / 2 ^ 8 % 2 ^ 8) + 2 ^ 16 * (v / 2 ^ 16 % 2 ^ 8) +
    2 ^ 24 * (v / 2 ^ 24 % 2 ^ 8) = v
  omega

theorem overlayWord_nil (w : ℕ) (hw : w < 2 ^ 32) :
    overlayWord w [] = w := by
  show w % 2 ^ 8 + 2 ^ 8 * (w / 2 ^ 8 % 2 ^ 8) + 2 ^ 16 * (w / 2 ^ 16 % 2 ^ 8) +
    2 ^ 24 * (w / 2 ^ 24 % 2 ^ 8) = w
  omega

theorem and_mask_xor_self (x : ℕ) (hx : x < 2 ^ 32) :
    x &&& ((2 ^ 32 - 1) ^^^ x) = 0 := by
  apply Nat.eq_of_testBit_eq
  intro i
  simp only [Nat.testBit_and, Nat.testBit_xor, Nat.zero_testBit]
  by_cases hi : i < 32
  · have hm : (2 ^ 32 - 1 : ℕ).testBit i = true := by
      rw [Nat.testBit_two_pow_sub_one]
      simpa using hi
    rw [hm]
    cases hxb : x.testBit i <;> simp
  · have hxf : x.testBit i = false := by
      apply Nat.testBit_eq_false_of_lt
      calc x < 2 ^ 32 := hx
        _ ≤ 2 ^ i := Nat.pow_le_pow_right (by norm_num) (by omega)
    rw [hxf]
    simp

theorem parseWbufs_roundtrip (ws : List WBuf) :
    (∀ w ∈ ws, wbufUnwritten w ≠ [] ∧ (wbufUnwritten w).length < 2 ^ 32) →
    parseWbufs ws.length ((ws.map (fun w => serData (wbufUnwritten w))).flatten) =
      some (ws.map (fun w => ⟨wbufUnwritten w, 0⟩), []) := by
  induction ws with
  | nil => intro _; rfl
  | cons w rest ih =>
    intro h
    obtain ⟨hne, hlt⟩ := h w (List.mem_cons_self _ _)
    simp only [List.map_cons, List.flatten_cons, List.length_cons, parseWbufs,
      parseChunk_serData none (wbufUnwritten w) _ hlt (by simp)]
    rw [if_neg (by simpa [List.isEmpty_iff] using hne)]
    rw [ih (fun u hu => h u (List.mem_cons_of_mem _ hu))]

theorem unserialize_serialize (fl : Bool) (oc pc : ℕ) (hpcf : Bool)
    (hb : List ℕ) (tl : ℕ) (tb : List ℕ) (dl : ℕ) (db : List ℕ) (ts : ℕ)
    (wb : List WBuf)
    (hval : ValidState ⟨fl, oc, pc, hpcf, hb, tl, tb, dl, db, ts, wb⟩ = true) :
    ∃ Q, usbredirparser_unserialize (pristineState fl oc)
        (usbredirparser_serialize ⟨fl, oc, pc, hpcf, hb, tl, tb, dl, db, ts, wb⟩) =
        some Q ∧
      Q.flUsbHost = fl ∧ Q.ourCaps = oc ∧ Q.peerCaps = pc ∧ Q.havePeerCaps = hpcf ∧
      Q.toSkip = ts ∧ Q.headerBytes = hb ∧ Q.typeHeaderLen = tl ∧
      Q.typeHeaderBytes = tb ∧ Q.dataBytes = db ∧
      Q.writeBuf.map wbufUnwritten = wb.map wbufUnwritten := by
  simp only [ValidState, usbredirparser_get_header_len, Bool.and_eq_true,
    decide_eq_true_eq, beq_iff_eq, Bool.or_eq_true, List.isEmpty_iff,
    List.all_eq_true] at hval
  obtain ⟨⟨⟨⟨⟨⟨⟨⟨⟨⟨⟨h1, h2⟩, h3⟩, h4⟩, h5⟩, h6⟩, h7⟩, h8⟩, hIf⟩, hWb⟩, hWcnt⟩, hSer⟩ := hval
  have hhl16 : headerLenCaps oc pc ≤ 16 := by rw [headerLenCaps]; split <;> omega
  have hb32 : hb.length < 2 ^ 32 := by omega
  have hwbu : ∀ w ∈ wb, wbufUnwritten w ≠ [] ∧ (wbufUnwritten w).length < 2 ^ 32 := by
    intro w hw
    obtain ⟨ha, hc⟩ := hWb w hw
    refine ⟨?_, ?_⟩
    · intro hnil
      rw [wbufUnwritten] at hnil
      have hlen := congrArg List.length hnil
      rw [List.length_drop] at hlen
      simp at hlen
      omega
    · rw [wbufUnwritten, List.length_drop]
      omega
  cases hpcf
  case false =>
    rcases h3 with h3 | h3
    · exact absurd h3 (by simp)
    subst h3
    simp only [usbredirparser_serialize, usbredirparser_unserialize, Bool.false_eq_true,
      if_false, List.append_assoc] at hSer ⊢
    set F := (List.map (fun w => serData (wbufUnwritten w)) wb).flatten with hF
    set R6 := le32 wb.length ++ F with hR6
    set R5 := serData db ++ R6 with hR5
    set R4 := serData tb ++ R5 with hR4
    set R3 := serData hb ++ R4 with hR3
    set R2 := le32 ts ++ R3 with hR2
    set R1 := le32 0 ++ R2 with hR1
    set R := serData (le32 oc) ++ R1 with hR
    have hMAX : MAX_PACKET_SIZE < 2 ^ 32 := by
      norm_num [MAX_PACKET_SIZE, MAX_BULK_TRANSFER_SIZE]
    have hR32 : 8 + R.length < 2 ^ 32 := by
      simp only [List.length_append, le32_length] at hSer
      omega
    have e1 : parseU32 (le32 USBREDIRPARSER_SERIALIZE_MAGIC ++ (le32 (8 + R.length) ++ R)) =
        some (USBREDIRPARSER_SERIALIZE_MAGIC, le32 (8 + R.length) ++ R) :=
      parseU32_le32 _ _ (by norm_num [USBREDIRPARSER_SERIALIZE_MAGIC])
    have e2 : parseU32 (le32 (8 + R.length) ++ R) = some (8 + R.length, R) :=
      parseU32_le32 _ _ hR32
    have e3 : parseChunk (some 4) R = some (le32 oc, R1) := by
      rw [hR]
      exact parseChunk_serData _ _ _ (by rw [le32_length]; norm_num)
        (by rw [le32_length]; simp)
    have e4 : parseChunk (some 4) R1 = some ([], R2) := by
      rw [hR1]
      exact parseChunk_le32_zero _ _
    have e5 : parseU32 R2 = some (ts, R3) := by
      rw [hR2]
      exact parseU32_le32 _ _ h4
    have e6 : parseChunk (some (headerLenCaps oc 0)) R3 = some (hb, R4) := by
      rw [hR3]
      exact parseChunk_serData _ _ _ hb32 (by simpa using h5)
    have e7 : parseU32 R6 = some (wb.length, F) := by
      rw [hR6]
      exact parseU32_le32 _ _ hWcnt
    have e8 : parseWbufs wb.length F = some (wb.map (fun w => ⟨wbufUnwritten w, 0⟩), []) := by
      rw [hF]
      exact parseWbufs_roundtrip wb hwbu
    have e9 : ∀ c, tb.length ≤ c → tb.length < 2 ^ 32 →
        parseChunk (some c) R4 = some (tb, R5) := by
      intro c hc hc2
      rw [hR4]
      exact parseChunk_serData _ _ _ hc2 (by simpa using hc)
    have e10 : ∀ c, db.length ≤ c → db.length < 2 ^ 32 →
        parseChunk (some c) R5 = some (db, R6) := by
      intro c hc hc2
      rw [hR5]
      exact parseChunk_serData _ _ _ hc2 (by simpa using hc)
    have hmask : oc &&& ((2 ^ 32 - 1) ^^^ oc % 2 ^ 32) = 0 := by
      rw [Nat.mod_eq_of_lt h1]
      exact and_mask_xor_self oc h1
    have hlen_eq : (le32 USBREDIRPARSER_SERIALIZE_MAGIC ++ (le32 (8 + R.length) ++ R)).length =
        8 + R.length := by
      simp only [List.length_append, le32_length]
      omega
    by_cases hcomp : hb.length = headerLenCaps oc 0
    · rw [if_pos hcomp] at hIf
      simp only [Bool.and_eq_true, decide_eq_true_eq, beq_iff_eq, Bool.or_eq_true] at hIf
      obtain ⟨⟨⟨⟨⟨⟨ht0, ht288⟩, htmax⟩, htle⟩, hor⟩, htl⟩, hdl⟩ := hIf
      have tb32 : tb.length < 2 ^ 32 := by omega
      have db32 : db.length < 2 ^ 32 := by omega
      have htn : (usbredirparser_get_type_header_len fl oc 0 (u32At hb 0) false).toNat = tl :=
        htl.symm
      have hA : (MAX_PACKET_SIZE < u32At hb 4) = False := eq_false (by omega)
      by_cases hfull : tb.length = tl
      · have hdla : u32At hb 4 - tl = dl := by omega
        simp only [e1, e2, e3, e4, e5, e6, e7, e8, e9 tl (by omega) tb32, pristineState,
          overlayWord_le32 oc oc h1, overlayWord_nil 0 (by norm_num), hmask, hlen_eq,
          usbredirparser_get_header_len, hcomp, hA, htn, hfull, hdla,
          e10 dl h7 db32, ne_eq, eq_self_iff_true, not_true, if_false, if_true,
          List.length_nil, and_true, true_and]
        have hB : (usbredirparser_get_type_header_len fl oc 0 (u32At hb 0) false < 0 ∨
            288 < usbredirparser_get_type_header_len fl oc 0 (u32At hb 0) false ∨
            u32At hb 4 < tl ∨ (tl < u32At hb 4 ∧
              (!usbredirparser_expect_extra_data (u32At hb 0)) = true)) = False := by
          apply eq_false
          intro hcase
          rcases hcase with h | h | h | ⟨hlt, hexp⟩
          · omega
          · omega
          · omega
          · rcases hor with hor | hor
            · omega
            · rw [hor] at hexp
              simp at hexp
        simp only [hB, if_false, e9 tl (by omega) tb32, hfull, eq_self_iff_true,
          if_true, hdla, e10 dl h7 db32, e7, e8, List.isEmpty_nil, not_true,
          true_and, and_true, Bool.not_true, Bool.false_eq_true]
        refine ⟨_, rfl, rfl, rfl, rfl, rfl, rfl, rfl, rfl, rfl, ?_, ?_⟩
        · show (if 0 < dl then db else []) = db
          by_cases hdl0 : 0 < dl
          · rw [if_pos hdl0]
          · rw [if_neg hdl0]
            have hdb : db = [] := List.eq_nil_of_length_eq_zero (by omega)
            rw [hdb]
        · show List.map wbufUnwritten
              (List.map (fun w => (⟨wbufUnwritten w, 0⟩ : WBuf)) wb) =
            List.map wbufUnwritten wb
          rw [List.map_map]
          apply List.map_congr_left
          intro w hw
          show wbufUnwritten ⟨wbufUnwritten w, 0⟩ = wbufUnwritten w
          rw [wbufUnwritten, wbufUnwritten]
          simp
      · have hdb : db = [] := by
          rcases h8 with h8 | h8
          · exact h8
          · exact absurd h8 hfull
        subst hdb
        simp only [e1, e2, e3, e4, e5, e6, e7, e8, pristineState,
          overlayWord_le32 oc oc h1, overlayWord_nil 0 (by norm_num), hmask, hlen_eq,
          usbredirparser_get_header_len, hcomp, hA, htn,
          ne_eq, eq_self_iff_true, not_true, if_false, if_true,
          List.length_nil, and_true, true_and]
        have hB : (usbredirparser_get_type_header_len fl oc 0 (u32At hb 0) false < 0 ∨
            288 < usbredirparser_get_type_header_len fl oc 0 (u32At hb 0) false ∨
            u32At hb 4 < tl ∨ (tl < u32At hb 4 ∧
              (!usbredirparser_expect_extra_data (u32At hb 0)) = true)) = False := by
          apply eq_false
          intro hcase
          rcases hcase with h | h | h | ⟨hlt, hexp⟩
          · omega
          · omega
          · omega
          · rcases hor with hor | hor
            · omega
            · rw [hor] at hexp
              simp at hexp
        simp only [hB, if_false, e9 tl (by omega) tb32, hfull,
          e10 0 (by simp) (by simp), e7, e8, List.isEmpty_nil, not_true,
          Bool.not_true, Bool.false_eq_true, false_and, and_false, if_true,
          true_and, and_true]
        refine ⟨_, rfl, rfl, rfl, rfl, rfl, rfl, rfl, rfl, rfl, rfl, ?_⟩
        show List.map wbufUnwritten
            (List.map (fun w => (⟨wbufUnwritten w, 0⟩ : WBuf)) wb) =
          List.map wbufUnwritten wb
        rw [List.map_map]
        apply List.map_congr_left
        intro w hw
        show wbufUnwritten ⟨wbufUnwritten w, 0⟩ = wbufUnwritten w
        rw [wbufUnwritten, wbufUnwritten]
        simp
    · rw [if_neg hcomp] at hIf
      simp only [Bool.and_eq_true, beq_iff_eq, List.isEmpty_iff] at hIf
      obtain ⟨⟨⟨htl0, htb0⟩, hdl0⟩, hdb0⟩ := hIf
      subst htl0 htb0 hdl0 hdb0
      simp only [e1, e2, e3, e4, e5, e6, pristineState,
        overlayWord_le32 oc oc h1, overlayWord_nil 0 (by norm_num), hmask, hlen_eq,
        usbredirparser_get_header_len, hcomp, e9 0 (by simp) (by simp),
        e10 (u32At hb 4) (by simp) (by simp), e7, e8,
        ne_eq, eq_self_iff_true, not_true, if_false, if_true, List.length_nil,
        List.isEmpty_nil, Bool.not_true, Bool.false_eq_true, false_and, and_false,
        and_true, true_and, Nat.sub_zero]
      refine ⟨_, rfl, rfl, rfl, rfl, rfl, rfl, rfl, rfl, rfl, rfl, ?_⟩
      show List.map wbufUnwritten
          (List.map (fun w => (⟨wbufUnwritten w, 0⟩ : WBuf)) wb) =
        List.map wbufUnwritten wb
      rw [List.map_map]
      apply List.map_congr_left
      intro w hw
      show wbufUnwritten ⟨wbufUnwritten w, 0⟩ = wbufUnwritten w
      rw [wbufUnwritten, wbufUnwritten]
      simp
  case true =>
    simp only [usbredirparser_serialize, usbredirparser_unserialize, eq_self_iff_true,
      if_true, List.append_assoc] at hSer ⊢
    set F := (List.map (fun w => serData (wbufUnwritten w)) wb).flatten with hF
    set R6 := le32 wb.length ++ F with hR6
    set R5 := serData db ++ R6 with hR5
    set R4 := serData tb ++ R5 with hR4
    set R3 := serData hb ++ R4 with hR3
    set R2 := le32 ts ++ R3 with hR2
    set R1 := serData (le32 pc) ++ R2 with hR1
    set R := serData (le32 oc) ++ R1 with hR
    have hMAX : MAX_PACKET_SIZE < 2 ^ 32 := by
      norm_num [MAX_PACKET_SIZE, MAX_BULK_TRANSFER_SIZE]
    have hR32 : 8 + R.length < 2 ^ 32 := by
      simp only [List.length_append, le32_length] at hSer
      omega
    have e1 : parseU32 (le32 USBREDIRPARSER_SERIALIZE_MAGIC ++ (le32 (8 + R.length) ++ R)) =
        some (USBREDIRPARSER_SERIALIZE_MAGIC, le32 (8 + R.length) ++ R) :=
      parseU32_le32 _ _ (by norm_num [USBREDIRPARSER_SERIALIZE_MAGIC])
    have e2 : parseU32 (le32 (8 + R.length) ++ R) = some (8 + R.length, R) :=
      parseU32_le32 _ _ hR32
    have e3 : parseChunk (some 4) R = some (le32 oc, R1) := by
      rw [hR]
      exact parseChunk_serData _ _ _ (by rw [le32_length]; norm_num)
        (by rw [le32_length]; simp)
    have e4 : parseChunk (some 4) R1 = some (le32 pc, R2) := by
      rw [hR1]
      exact parseChunk_serData _ _ _ (by rw [le32_length]; norm_num)
        (by rw [le32_length]; simp)
    have e5 : parseU32 R2 = some (ts, R3) := by
      rw [hR2]
      exact parseU32_le32 _ _ h4
    have e6 : parseChunk (some (headerLenCaps oc pc)) R3 = some (hb, R4) := by
      rw [hR3]
      exact parseChunk_serData _ _ _ hb32 (by simpa using h5)
    have e7 : parseU32 R6 = some (wb.length, F) := by
      rw [hR6]
      exact parseU32_le32 _ _ hWcnt
    have e8 : parseWbufs wb.length F = some (wb.map (fun w => ⟨wbufUnwritten w, 0⟩), []) := by
      rw [hF]
      exact parseWbufs_roundtrip wb hwbu
    have e9 : ∀ c, tb.length ≤ c → tb.length < 2 ^ 32 →
        parseChunk (some c) R4 = some (tb, R5) := by
      intro c hc hc2
      rw [hR4]
      exact parseChunk_serData _ _ _ hc2 (by simpa using hc)
    have e10 : ∀ c, db.length ≤ c → db.length < 2 ^ 32 →
        parseChunk (some c) R5 = some (db, R6) := by
      intro c hc hc2
      rw [hR5]
      exact parseChunk_serData _ _ _ hc2 (by simpa using hc)
    have hmask : oc &&& ((2 ^ 32 - 1) ^^^ oc % 2 ^ 32) = 0 := by
      rw [Nat.mod_eq_of_lt h1]
      exact and_mask_xor_self oc h1
    have hlen_eq : (le32 USBREDIRPARSER_SERIALIZE_MAGIC ++ (le32 (8 + R.length) ++ R)).length =
        8 + R.length := by
      simp only [List.length_append, le32_length]
      omega
    have hpne : ((le32 pc).length ≠ 0) = True := by
      rw [le32_length]
      norm_num
    by_cases hcomp : hb.length = headerLenCaps oc pc
    · rw [if_pos hcomp] at hIf
      simp only [Bool.and_eq_true, decide_eq_true_eq, beq_iff_eq, Bool.or_eq_true] at hIf
      obtain ⟨⟨⟨⟨⟨⟨ht0, ht288⟩, htmax⟩, htle⟩, hor⟩, htl⟩, hdl⟩ := hIf
      have tb32 : tb.length < 2 ^ 32 := by omega
      have db32 : db.length < 2 ^ 32 := by omega
      have htn : (usbredirparser_get_type_header_len fl oc pc (u32At hb 0) false).toNat = tl :=
        htl.symm
      have hA : (MAX_PACKET_SIZE < u32At hb 4) = False := eq_false (by omega)
      by_cases hfull : tb.length = tl
      · have hdla : u32At hb 4 - tl = dl := by omega
        simp only [e1, e2, e3, e4, e5, e6, e7, e8, pristineState,
          overlayWord_le32 oc oc h1, overlayWord_le32 0 pc h2, hmask, hlen_eq, hpne,
          usbredirparser_get_header_len, hcomp, hA, htn,
          ne_eq, eq_self_iff_true, not_true, if_false, if_true,
          List.length_nil, and_true, true_and]
        have hB : (usbredirparser_get_type_header_len fl oc pc (u32At hb 0) false < 0 ∨
            288 < usbredirparser_get_type_header_len fl oc pc (u32At hb 0) false ∨
            u32At hb 4 < tl ∨ (tl < u32At hb 4 ∧
              (!usbredirparser_expect_extra_data (u32At hb 0)) = true)) = False := by
          apply eq_false
          intro hcase
          rcases hcase with h | h | h | ⟨hlt, hexp⟩
          · omega
          · omega
          · omega
          · rcases hor with hor | hor
            · omega
            · rw [hor] at hexp
              simp at hexp
        simp only [hB, if_false, e9 tl (by omega) tb32, hfull, eq_self_iff_true,
          if_true, hdla, e10 dl h7 db32, e7, e8, List.isEmpty_nil, not_true,
          true_and, and_true, Bool.not_true, Bool.false_eq_true]
        refine ⟨_, rfl, rfl, rfl, rfl, rfl, rfl, rfl, rfl, rfl, ?_, ?_⟩
        · show (if 0 < dl then db else []) = db
          by_cases hdl0 : 0 < dl
          · rw [if_pos hdl0]
          · rw [if_neg hdl0]
            have hdb : db = [] := List.eq_nil_of_length_eq_zero (by omega)
            rw [hdb]
        · show List.map wbufUnwritten
              (List.map (fun w => (⟨wbufUnwritten w, 0⟩ : WBuf)) wb) =
            List.map wbufUnwritten wb
          rw [List.map_map]
          apply List.map_congr_left
          intro w hw
          show wbufUnwritten ⟨wbufUnwritten w, 0⟩ = wbufUnwritten w
          rw [wbufUnwritten, wbufUnwritten]
          simp
      · have hdb : db = [] := by
          rcases h8 with h8 | h8
          · exact h8
          · exact absurd h8 hfull
        subst hdb
        simp only [e1, e2, e3, e4, e5, e6, e7, e8, pristineState,
          overlayWord_le32 oc oc h1, overlayWord_le32 0 pc h2, hmask, hlen_eq, hpne,
          usbredirparser_get_header_len, hcomp, hA, htn,
          ne_eq, eq_self_iff_true, not_true, if_false, if_true,
          List.length_nil, and_true, true_and]
        have hB : (usbredirparser_get_type_header_len fl oc pc (u32At hb 0) false < 0 ∨
            288 < usbredirparser_get_type_header_len fl oc pc (u32At hb 0) false ∨
            u32At hb 4 < tl ∨ (tl < u32At hb 4 ∧
              (!usbredirparser_expect_extra_data (u32At hb 0)) = true)) = False := by
          apply eq_false
          intro hcase
          rcases hcase with h | h | h | ⟨hlt, hexp⟩
          · omega
          · omega
          · omega
          · rcases hor with hor | hor
            · omega
            · rw [hor] at hexp
              simp at hexp
        simp only [hB, if_false, e9 tl (by omega) tb32, hfull,
          e10 0 (by simp) (by simp), e7, e8, List.isEmpty_nil, not_true,
          Bool.not_true, Bool.false_eq_true, false_and, and_false, if_true,
          true_and, and_true]
        refine ⟨_, rfl, rfl, rfl, rfl, rfl, rfl, rfl, rfl, rfl, rfl, ?_⟩
        show List.map wbufUnwritten
            (List.map (fun w => (⟨wbufUnwritten w, 0⟩ : WBuf)) wb) =
          List.map wbufUnwritten wb
        rw [List.map_map]
        apply List.map_congr_left
        intro w hw
        show wbufUnwritten ⟨wbufUnwritten w, 0⟩ = wbufUnwritten w
        rw [wbufUnwritten, wbufUnwritten]
        simp
    · rw [if_neg hcomp] at hIf
      simp only [Bool.and_eq_true, beq_iff_eq, List.isEmpty_iff] at hIf
      obtain ⟨⟨⟨htl0, htb0⟩, hdl0⟩, hdb0⟩ := hIf
      subst htl0 htb0 hdl0 hdb0
      simp only [e1, e2, e3, e4, e5, e6, pristineState,
        overlayWord_le32 oc oc h1, overlayWord_le32 0 pc h2, hmask, hlen_eq, hpne,
        usbredirparser_get_header_len, hcomp, e9 0 (by simp) (by simp),
        e10 (u32At hb 4) (by simp) (by simp), e7, e8,
        ne_eq, eq_self_iff_true, not_true, if_false, if_true, List.length_nil,
        List.isEmpty_nil, Bool.not_true, Bool.false_eq_true, false_and, and_false,
        and_true, true_and, Nat.sub_zero]
      refine ⟨_, rfl, rfl, rfl, rfl, rfl, rfl, rfl, rfl, rfl, rfl, ?_⟩
      show List.map wbufUnwritten
          (List.map (fun w => (⟨wbufUnwritten w, 0⟩ : WBuf)) wb) =
        List.map wbufUnwritten wb
      rw [List.map_map]
      apply List.map_congr_left
      intro w hw
      show wbufUnwritten ⟨wbufUnwritten w, 0⟩ = wbufUnwritten w
      rw [wbufUnwritten, wbufUnwritten]
      simp

theorem unserialize_requires_pristine (s : PState) (blob : List ℕ)
    (h : ¬(s.writeBuf = [] ∧ s.dataLen = 0 ∧ s.headerBytes = [] ∧
          s.typeHeaderBytes = [] ∧ s.dataBytes = [])) :
    usbredirparser_unserialize s blob = none := by
  simp only [usbredirparser_unserialize]
  rcases parseU32 blob with _ | ⟨m, r1⟩
  · rfl
  · by_cases hm : m ≠ USBREDIRPARSER_SERIALIZE_MAGIC
    · simp only [if_pos hm]
    · simp only [if_neg hm, if_pos h]

/-- Claim C8 (confirmed): `usbredirparser_unserialize` succeeds only on a
pristine parser (no queued write buffers, no partial inbound packet, no
allocated data); and for every reachable parser state P, unserializing
`usbredirparser_serialize P` into a pristine parser configured with the
same usb-host flag and our_caps word succeeds and restores the capability
words, the have_peer_caps flag, the skip counter, all three read cursors
with their partial bytes, and an outbound queue holding the same unwritten
bytes in the same order. -/
theorem C8_snapshot_roundtrip (P : PState) (hval : ValidState P = true) :
    (∀ s blob, (usbredirparser_unserialize s blob).isSome = true →
      s.writeBuf = [] ∧ s.dataLen = 0 ∧ s.headerBytes = [] ∧
      s.typeHeaderBytes = [] ∧ s.dataBytes = []) ∧
    (∃ Q, usbredirparser_unserialize (pristineState P.flUsbHost P.ourCaps)
        (usbredirparser_serialize P) = some Q ∧
      Q.flUsbHost = P.flUsbHost ∧ Q.ourCaps = P.ourCaps ∧ Q.peerCaps = P.peerCaps ∧
      Q.havePeerCaps = P.havePeerCaps ∧ Q.toSkip = P.toSkip ∧
      Q.headerBytes = P.headerBytes ∧ Q.typeHeaderLen = P.typeHeaderLen ∧
      Q.typeHeaderBytes = P.typeHeaderBytes ∧ Q.dataBytes = P.dataBytes ∧
      Q.writeBuf.map wbufUnwritten = P.writeBuf.map wbufUnwritten) := by
  constructor
  · intro s blob h
    by_contra hc
    rw [unserialize_requires_pristine s blob hc] at h
    simp at h
  · obtain ⟨fl, oc, pc, hq, hb, tl, tb, dl, db, ts, wb⟩ := P
    exact unserialize_serialize fl oc pc hq hb tl tb dl db ts wb hval

theorem C8_witness :
    ValidState ⟨true, 1, 0, false, [1, 2], 0, [], 0, [], 3, [⟨[9, 8, 7], 1⟩]⟩ = true ∧
    ((∀ s blob, (usbredirparser_unserialize s blob).isSome = true →
      s.writeBuf = [] ∧ s.dataLen = 0 ∧ s.headerBytes = [] ∧
      s.typeHeaderBytes = [] ∧ s.dataBytes = []) ∧
    (∃ Q, usbredirparser_unserialize
        (pristineState (⟨true, 1, 0, false, [1, 2], 0, [], 0, [], 3,
          [⟨[9, 8, 7], 1⟩]⟩ : PState).flUsbHost
          (⟨true, 1, 0, false, [1, 2], 0, [], 0, [], 3, [⟨[9, 8, 7], 1⟩]⟩ : PState).ourCaps)
        (usbredirparser_serialize
          ⟨true, 1, 0, false, [1, 2], 0, [], 0, [], 3, [⟨[9, 8, 7], 1⟩]⟩) = some Q ∧
      Q.flUsbHost = true ∧ Q.ourCaps = 1 ∧ Q.peerCaps = 0 ∧
      Q.havePeerCaps = false ∧ Q.toSkip = 3 ∧
      Q.headerBytes = [1, 2] ∧ Q.typeHeaderLen = 0 ∧
      Q.typeHeaderBytes = [] ∧ Q.dataBytes = [] ∧
      Q.writeBuf.map wbufUnwritten =
        [(⟨[9, 8, 7], 1⟩ : WBuf)].map wbufUnwritten)) :=
  ⟨by decide,
   C8_snapshot_roundtrip ⟨true, 1, 0, false, [1, 2], 0, [], 0, [], 3, [⟨[9, 8, 7], 1⟩]⟩
     (by decide)⟩

end USBRedir



